import Mathlib

/-!
# check_fields: checksum engine and record verifier

A shallow embedding of `main.cc` (the standalone `.field` checksum checker) and
theorems about it.

* Memory is a list of bytes; an `unsigned char*` is an offset into it.
* `uint32_t` values live in `U32`; `int64_t` values are `Int` (no operation of
  the engine leaves the 64-bit range on a length that is in it); `uint32_t`
  arithmetic and the conversions between integer types are written out with
  `%`.
* The two zlib routines the program links against are parameters (`Zlib`); a
  reference model of them (`zlib`) serves as an instance.
* The iterations of the parallel loop take effect in an order given by a
  `Schedule`; every order that runs each index once is a schedule.
* Every function of the engine returns its value together with the list of
  source-level events it performed (`Run`); `none` stands for behaviour the C++
  program leaves undefined or ends by an exception inside the engine.
* `main` returns how the program ends, the verdicts it printed and the events of
  the engine.  Assertions are active (the source does not define `NDEBUG`) and
  allocation is taken to succeed.
-/

namespace CheckFields

/-- One `unsigned char`. -/
abbrev Byte := Fin 256

/-- One `uint32_t`. -/
abbrev U32 := Fin 4294967296

/-- The zlib routines used by the program:
`uLong crc32(uLong crc, const Bytef* buf, uInt len)`, given here the bytes
`buf[0..len)`, and `uLong crc32_combine(uLong crc1, uLong crc2, z_off_t len2)`. -/
structure Zlib where
  crc32 : U32 → List Byte → U32
  crc32_combine : U32 → U32 → Int → U32

/-- One shift step of the CRC-32 register, reflected form, polynomial
`0xEDB88320`. -/
def crc_bit (c : Nat) : Nat :=
  if c % 2 = 1 then (c / 2) ^^^ 0xEDB88320 else c / 2

/-- One byte is fed into the CRC-32 register. -/
def crc_byte (c : Nat) (b : Byte) : Nat :=
  crc_bit (crc_bit (crc_bit (crc_bit (crc_bit (crc_bit (crc_bit (crc_bit (c ^^^ b.val))))))))

/-- Modelled from the spec: zlib's `crc32` is a linked library routine, not part
of the program's source; this is the standard reflected CRC-32 (polynomial
`0xEDB88320`, initial and final XOR `0xFFFFFFFF`) that it implements. -/
def zlib_crc32 (crc : U32) (buf : List Byte) : U32 :=
  Fin.ofNat ((buf.foldl crc_byte (crc.val ^^^ 0xFFFFFFFF)) ^^^ 0xFFFFFFFF)

/-- Modelled from the spec: zlib's `crc32_combine` is a linked library routine;
it advances the register of the first checksum over `len2` zero bytes and adds
the second checksum to it. -/
def zlib_crc32_combine (crc1 crc2 : U32) (len2 : Int) : U32 :=
  Fin.ofNat (((fun c => crc_byte c 0)^[len2.toNat] crc1.val) ^^^ crc2.val)

/-- The reference model of the two zlib routines. -/
def zlib : Zlib := ⟨zlib_crc32, zlib_crc32_combine⟩

/-- Source-level events of the checksum engine. -/
inductive Event where
  /-- entry of `cgpt_crc32(&mem[data], len, start_crc)` -/
  | call (data : Nat) (len : Int) (start_crc : U32)
  /-- `cgpt_crc32` returns `crc` -/
  | ret (crc : U32)
  /-- the results vector `pcrcs(blocks)` is created (line 47) -/
  | pcrcs (blocks : Int)
  /-- `crc32(crc, &mem[buf], len)` is called (line 51) -/
  | crc32 (crc : U32) (buf : Nat) (len : Nat)
  /-- `crc32_combine(crc1, crc2, len2)` is called (line 60) -/
  | crc32_combine (crc1 crc2 : U32) (len2 : Int)
  deriving DecidableEq, Repr

/-- A computation of the engine: its value and the events it performed, or
`none` when it leaves defined behaviour. -/
abbrev Run (α : Type) := Option (α × List Event)

/-- A computation that only returns. -/
def Run.pure {α : Type} (a : α) : Run α := some (a, [])

/-- A computation that performs one event. -/
def Run.emit (e : Event) : Run Unit := some ((), [e])

/-- Sequencing: the events of the first computation come first. -/
def Run.bind {α β : Type} (x : Run α) (f : α → Run β) : Run β :=
  match x with
  | none => none
  | some (a, t) =>
    match f a with
    | none => none
    | some (b, u) => some (b, t ++ u)

/-- The value of a computation, without its events. -/
def Run.value {α : Type} (x : Run α) : Option α := x.map Prod.fst

/-- The events of a computation (none when it faults). -/
def Run.events {α : Type} (x : Run α) : List Event :=
  match x with
  | none => []
  | some (_, t) => t

/-- The bytes `mem[off .. off+n)`, when they all exist. -/
def slice (mem : List Byte) (off n : Nat) : Option (List Byte) :=
  if off + n ≤ mem.length then some ((mem.drop off).take n) else none

/-- Line 35: `off_t step = 1024*1024*1024`. -/
def step : Int := 1024 * 1024 * 1024

/-- Line 45: `int64_t block_size = 512*1024`. -/
def block_size : Int := 512 * 1024

/-- Line 46: the number of sub-blocks (C++ `/` and `%` truncate). -/
def blocks (len : Int) : Int :=
  if Int.tmod len block_size = 0 then Int.tdiv len block_size
  else Int.tdiv len block_size + 1

/-- Lines 50 and 59: `std::min(block_size, len - block_start)` with
`block_start = block_size * iblk`. -/
def block_len (len : Int) (iblk : Nat) : Int :=
  let block_start : Int := block_size * iblk
  min block_size (len - block_start)

/-- A schedule of the parallel loops: for a loop over `num` indices, `order num`
lists the indices in the order in which their iterations take effect.  Every
index below `num` occurs exactly once; nothing else is fixed. -/
structure Schedule where
  order : Nat → List Nat
  valid : ∀ num, (order num).Perm (List.range num)

/-- The schedule of the loop run by one thread: the indices in increasing
order. -/
def Schedule.sequential : Schedule :=
  ⟨List.range, fun _ => List.Perm.refl _⟩

/-- The macro `thread_for(i, num, body)` of line 30 (an OpenMP `parallel for`
over `for (uint64_t i = 0; i < num; i++) body`): the body runs once for each
index, in the order the schedule gives. -/
def thread_for {σ : Type} (sched : Schedule) (num : Nat)
    (body : Nat → σ → σ) (init : σ) : σ :=
  (sched.order num).foldl (fun s i => body i s) init

/-- Lines 49-51, the body of the parallel loop for index `iblk`, acting on the
results vector: the sub-block is hashed by zlib (whose length parameter is a
32-bit `uInt`) and the result is stored in slot `iblk`. -/
def block_task (z : Zlib) (mem : List Byte) (data : Nat) (len : Int) (start_crc : U32)
    (iblk : Nat) (st : Run (List U32)) : Run (List U32) :=
  st.bind fun pcrcs =>
    let block_start : Int := block_size * iblk
    let n : Nat := (block_len len iblk % 4294967296).toNat
    match slice mem (data + block_start.toNat) n with
    | none => none
    | some buf =>
      if iblk < pcrcs.length then
        some (pcrcs.set iblk (z.crc32 (if iblk = 0 then start_crc else 0) buf),
              [Event.crc32 (if iblk = 0 then start_crc else 0) (data + block_start.toNat) n])
      else none

/-- Lines 47-52: the results vector is created with `blocks` slots (a negative
count makes the constructor throw) and filled by the parallel loop. -/
def cgpt_crc32_pcrcs (z : Zlib) (sched : Schedule) (mem : List Byte) (data : Nat)
    (len : Int) (start_crc : U32) : Run (List U32) :=
  if blocks len < 0 then none
  else
    thread_for sched (blocks len).toNat (block_task z mem data len start_crc)
      (some (List.replicate (blocks len).toNat 0, [Event.pcrcs (blocks len)]))

/-- Lines 58-60, one iteration of the reduction loop. -/
def reduce_step (z : Zlib) (len : Int) (pcrcs : List U32) (acc : Run U32) (iblk : Nat) :
    Run U32 :=
  acc.bind fun crc =>
    match pcrcs[iblk]? with
    | none => none
    | some p =>
      some (z.crc32_combine crc p (block_len len iblk),
            [Event.crc32_combine crc p (block_len len iblk)])

/-- Lines 55-61: `crc = pcrcs[0]`, then the blocks `1 .. blocks-1` are combined
in from left to right. -/
def cgpt_crc32_reduce (z : Zlib) (len : Int) (pcrcs : List U32) : Run U32 :=
  match pcrcs[0]? with
  | none => none
  | some p0 =>
    (List.range' 1 ((blocks len).toNat - 1)).foldl (reduce_step z len pcrcs) (Run.pure p0)

/-- Lines 45-65, the branch `len <= step`. -/
def cgpt_crc32_blocks (z : Zlib) (sched : Schedule) (mem : List Byte) (data : Nat)
    (len : Int) (start_crc : U32) : Run U32 :=
  (cgpt_crc32_pcrcs z sched mem data len start_crc).bind fun pcrcs =>
    cgpt_crc32_reduce z len pcrcs

mutual
/-- Lines 33-81: `cgpt_crc32(&mem[data], len, start_crc)`. -/
def cgpt_crc32 (z : Zlib) (sched : Schedule) (mem : List Byte) (data : Nat)
    (len : Int) (start_crc : U32) : Run U32 :=
  (Run.emit (Event.call data len start_crc)).bind fun _ =>
    Run.bind
      (if len = 0 then Run.pure start_crc
       else if len ≤ step then cgpt_crc32_blocks z sched mem data len start_crc
       else cgpt_crc32_while z sched mem data start_crc 0 len)
      fun crc => (Run.emit (Event.ret crc)).bind fun _ => Run.pure crc
termination_by if len ≤ step then 0 else 2 * len.toNat + 2
decreasing_by
  all_goals simp_wf
  all_goals simp only [step] at *
  all_goals first
    | omega
    | (split_ifs; all_goals omega)

/-- Lines 73-79: the loop of the branch `len > step` and the final call, from the
loop state `crc`, `blk`, `len`. -/
def cgpt_crc32_while (z : Zlib) (sched : Schedule) (mem : List Byte) (data : Nat)
    (crc : U32) (blk : Int) (len : Int) : Run U32 :=
  if len > step then
    (cgpt_crc32 z sched mem (data + blk.toNat) step crc).bind fun crc1 =>
      cgpt_crc32_while z sched mem data crc1 (blk + step) (len - step)
  else
    cgpt_crc32 z sched mem (data + blk.toNat) len crc
termination_by 2 * len.toNat + 1
decreasing_by
  all_goals simp_wf
  all_goals simp only [step] at *
  all_goals first
    | omega
    | (split_ifs; all_goals omega)
end

/-! ## The record verifier (`main`) -/

/-- A `FILE*` opened for reading: the bytes not yet read and the end-of-file
indicator. -/
structure FILE where
  rest : List Byte
  eof : Bool
  deriving DecidableEq, Repr

/-- The call `fread(ptr, size, 1, f)` where `ptr` points to `cap` writable bytes:
the return value (0 or 1), the bytes stored and the stream afterwards; `none`
when bytes would be stored beyond the buffer.  A request of size 0 returns 0 and
leaves the stream as it is; a short read stores what is left and sets the
end-of-file indicator. -/
def fread (cap size : Nat) (f : FILE) : Option (Nat × List Byte × FILE) :=
  if size = 0 then some (0, [], f)
  else if size ≤ f.rest.length then
    if size ≤ cap then some (1, f.rest.take size, ⟨f.rest.drop size, f.eof⟩) else none
  else
    if f.rest.length ≤ cap then some (0, f.rest, ⟨[], true⟩) else none

/-- The unsigned integer stored in a run of bytes (native order of the usual
targets: least significant byte first). -/
def le_value (bs : List Byte) : Nat :=
  bs.foldr (fun b acc => b.val + 256 * acc) 0

/-- How the program ends: `return status` from `main`, a failed `assert`
(`abort()`), or behaviour the language leaves undefined. -/
inductive Outcome where
  | exit (status : Nat)
  | abort
  | undefined
  deriving DecidableEq, Repr

/-- The verdict printed for a record: `OK` (line 116) or `ERR` with the computed
checksum (line 118). -/
inductive Verdict where
  | ok
  | err (crc32_check : U32)
  deriving DecidableEq, Repr

/-- What one pass through the body of the record loop does to the loop. -/
inductive Iter where
  /-- `break` at line 97 -/
  | brk
  /-- the program ends inside the body -/
  | stop (o : Outcome)
  /-- the body ran to its end; the stream is now `f` -/
  | next (f : FILE)
  deriving DecidableEq, Repr

/-- The conversion of a `uint64_t` to `int64_t` at the call of line 114. -/
def to_int64 (size : Nat) : Int :=
  if size % 18446744073709551616 < 9223372036854775808 then (size % 18446744073709551616 : Nat)
  else ((size % 18446744073709551616 : Nat) : Int) - 18446744073709551616

/-- The statement `assert(fread(ptr, size, 1, f) == 1)` followed by `k`: the
program aborts unless the read returned 1. -/
def assert_fread (cap size : Nat) (f : FILE)
    (k : List Byte → FILE → Iter × List Verdict × List Event) :
    Iter × List Verdict × List Event :=
  match fread cap size f with
  | none => (Iter.stop Outcome.undefined, [], [])
  | some (r, bs, f1) => if r = 1 then k bs f1 else (Iter.stop Outcome.abort, [], [])

/-- Lines 114-120: the payload is hashed and compared with the stored value; the
verdict is printed and a mismatch ends the program with status 2. -/
def check (z : Zlib) (sched : Schedule) (crc32 : U32) (size : Nat) (data : List Byte)
    (f : FILE) : Iter × List Verdict × List Event :=
  match cgpt_crc32 z sched data 0 (to_int64 size) 0 with
  | none => (Iter.stop Outcome.undefined, [], [])
  | some (crc32_check, t) =>
    if crc32_check = crc32 then (Iter.next f, [Verdict.ok], t)
    else (Iter.stop (Outcome.exit 2), [Verdict.err crc32_check], t)

/-- Lines 95-124, the body of the record loop on stream `f`: what happens to the
loop, the verdicts printed and the events of the engine.  Arithmetic on `n_tag`
and `nd` is that of `uint32_t`; allocation is taken to succeed. -/
def record (z : Zlib) (sched : Schedule) (f : FILE) : Iter × List Verdict × List Event :=
  match fread 4 4 f with
  | none => (Iter.stop Outcome.undefined, [], [])
  | some (r, b_tag, f1) =>
    if r = 0 then (Iter.brk, [], [])
    else
      assert_fread ((le_value b_tag + 1) % 4294967296) (le_value b_tag) f1 fun _ f2 =>
      assert_fread 4 4 f2 fun b_crc f3 =>
      assert_fread 4 4 f3 fun b_nd f4 =>
      assert_fread (4 * ((2 * le_value b_nd) % 4294967296))
        ((4 * 2 * le_value b_nd) % 4294967296) f4 fun _ f5 =>
      assert_fread 8 8 f5 fun b_size f6 =>
      assert_fread (le_value b_size) (le_value b_size) f6 fun data f7 =>
      check z sched (Fin.ofNat (le_value b_crc)) (le_value b_size) data f7

/-! ### Termination of the record loop -/

/-- A call of `fread` never lengthens the stream. -/
theorem fread_rest_le {cap size : Nat} {f f1 : FILE} {r : Nat} {bs : List Byte}
    (h : fread cap size f = some (r, bs, f1)) : f1.rest.length ≤ f.rest.length := by
  unfold fread at h
  split_ifs at h <;> simp only [Option.some.injEq, Prod.mk.injEq] at h <;>
    obtain ⟨-, -, rfl⟩ := h <;> simp

/-- A call of `fread` that does not return 0 returned 1 and consumed exactly
`size > 0` bytes. -/
theorem fread_one {cap size : Nat} {f f1 : FILE} {r : Nat} {bs : List Byte}
    (h : fread cap size f = some (r, bs, f1)) (hr : r ≠ 0) :
    0 < size ∧ size ≤ f.rest.length ∧ r = 1 ∧ bs = f.rest.take size ∧
      f1 = ⟨f.rest.drop size, f.eof⟩ := by
  unfold fread at h
  split_ifs at h <;> simp only [Option.some.injEq, Prod.mk.injEq] at h <;>
    obtain ⟨rfl, rfl, rfl⟩ := h
  · exact absurd rfl hr
  · exact ⟨by omega, by assumption, rfl, rfl, rfl⟩
  · exact absurd rfl hr

/-- When an asserted read lets the iteration run to its end, the read succeeded
and the continuation ran to its end. -/
theorem assert_fread_next {cap size : Nat} {f f9 : FILE}
    {k : List Byte → FILE → Iter × List Verdict × List Event}
    {t : List Verdict × List Event}
    (h : assert_fread cap size f k = (Iter.next f9, t)) :
    ∃ bs f1, f1.rest.length ≤ f.rest.length ∧ k bs f1 = (Iter.next f9, t) := by
  unfold assert_fread at h
  split at h
  · simp at h
  · rename_i r bs f1 h1
    split_ifs at h
    · exact ⟨bs, f1, fread_rest_le h1, h⟩
    · simp at h

/-- An iteration that runs to its end has consumed at least the four bytes of
the tag length. -/
theorem record_next_lt {z : Zlib} {sched : Schedule} {f f1 : FILE}
    {t : List Verdict × List Event}
    (h : record z sched f = (Iter.next f1, t)) : f1.rest.length < f.rest.length := by
  unfold record at h
  split at h
  · simp at h
  rename_i r b_tag g1 h1
  split_ifs at h with hr
  · simp at h
  obtain ⟨k0, k1, -, -, rfl⟩ := fread_one h1 hr
  obtain ⟨_, g2, e2, h⟩ := assert_fread_next h
  obtain ⟨_, g3, e3, h⟩ := assert_fread_next h
  obtain ⟨_, g4, e4, h⟩ := assert_fread_next h
  obtain ⟨_, g5, e5, h⟩ := assert_fread_next h
  obtain ⟨_, g6, e6, h⟩ := assert_fread_next h
  obtain ⟨_, g7, e7, h⟩ := assert_fread_next h
  unfold check at h
  split at h
  · simp at h
  split_ifs at h
  · simp only [Prod.mk.injEq, Iter.next.injEq] at h
    obtain ⟨rfl, -⟩ := h
    simp only [List.length_drop] at e2
    omega
  · simp at h

set_option linter.unusedVariables false in
/-- Lines 94-125: the record loop `while (!feof(f)) ...`.  The first component
is `none` when the loop is left normally (the file is then closed) and the
program's outcome when the program ends inside the loop. -/
def records (z : Zlib) (sched : Schedule) (f : FILE) :
    Option Outcome × List Verdict × List Event :=
  if f.eof then (none, [], [])
  else
    match h : record z sched f with
    | (Iter.brk, v, t) => (none, v, t)
    | (Iter.stop o, v, t) => (some o, v, t)
    | (Iter.next f1, v, t) =>
      ((records z sched f1).1, v ++ (records z sched f1).2.1,
        t ++ (records z sched f1).2.2)
termination_by f.rest.length
decreasing_by all_goals exact record_next_lt h

/-- Lines 84-129: `main`, for the file names `argv[1..]`; `fopen` gives the
contents of the files that can be opened.  The result is how the program ends,
the verdicts it printed and the events of the engine. -/
def main (z : Zlib) (sched : Schedule) (fopen : String → Option (List Byte)) :
    List String → Outcome × List Verdict × List Event
  | [] => (Outcome.exit 0, [], [])
  | fn :: argv =>
    match fopen fn with
    | none => (Outcome.exit 1, [], [])
    | some bytes =>
      match records z sched ⟨bytes, false⟩ with
      | (some o, v, t) => (o, v, t)
      | (none, v, t) =>
        ((main z sched fopen argv).1, v ++ (main z sched fopen argv).2.1,
          t ++ (main z sched fopen argv).2.2)

/-! ## The documented record layout -/

/-- The `w` bytes that store the unsigned integer `n`, least significant byte
first. -/
def le_bytes : Nat → Nat → List Byte
  | 0, _ => []
  | w + 1, n => Fin.ofNat (n % 256) :: le_bytes w (n / 256)

/-- A record of the file format that `record` reads (the layout documented in
section 6 of the specification): the tag, the stored reference checksum, the
dimension count, the shape descriptor and the payload. -/
structure Record where
  tag : List Byte
  reference_crc32 : U32
  num_dims : Nat
  shape_descriptor : List Byte
  payload : List Byte

/-- The header of a record in the documented layout, in the order of the reads
of lines 96-108: `u32 tag_length`, the tag, `u32 reference_crc32`,
`u32 num_dims`, the shape descriptor and `u64 payload_length`. -/
def Record.header (r : Record) : List Byte :=
  le_bytes 4 r.tag.length ++ (r.tag ++ (le_bytes 4 r.reference_crc32.val ++
    (le_bytes 4 r.num_dims ++ (r.shape_descriptor ++ le_bytes 8 r.payload.length))))

/-- A complete record: the header followed by the payload. -/
def Record.bytes (r : Record) : List Byte :=
  r.header ++ r.payload

/-- What the documented layout admits: the lengths fit their fields and the
shape descriptor holds `2 * num_dims` 32-bit integers. -/
def Record.admitted (r : Record) : Prop :=
  r.tag.length < 4294967296 ∧ r.num_dims < 4294967296 ∧
    r.shape_descriptor.length = 8 * r.num_dims ∧
    r.payload.length < 18446744073709551616

/-- The records whose every field the program reads with a read of non-zero
size that fits its 32-bit arithmetic: a non-empty tag shorter than `2^32 - 1`,
between 1 and `2^29 - 1` dimensions, and a non-empty payload shorter than
`2^63`. -/
def Record.readable (r : Record) : Prop :=
  0 < r.tag.length ∧ r.tag.length < 4294967295 ∧
    0 < r.num_dims ∧ r.num_dims < 536870912 ∧
    r.shape_descriptor.length = 8 * r.num_dims ∧
    0 < r.payload.length ∧ r.payload.length < 9223372036854775808

/-- The headers that the program's 32-bit arithmetic reads as documented: the
tag is shorter than `2^32 - 1` bytes and there are fewer than `2^29`
dimensions. -/
def Record.header_in_range (r : Record) : Prop :=
  r.tag.length < 4294967295 ∧ r.num_dims < 536870912 ∧
    r.shape_descriptor.length = 8 * r.num_dims ∧
    r.payload.length < 18446744073709551616

/-- The stored checksum of a record is the value the engine computes for its
payload from start state 0. -/
def Record.verifies (z : Zlib) (sched : Schedule) (r : Record) : Prop :=
  (cgpt_crc32 z sched r.payload 0 (r.payload.length : Int) 0).value = some r.reference_crc32

/-- The bytes of a file that holds the given records one after another. -/
def file_bytes (recs : List Record) : List Byte :=
  (recs.map Record.bytes).flatten

/-! ## Definitions used to state the properties -/

/-- The effect of the loop body `block_task` on the results vector alone. -/
def block_task_value (z : Zlib) (mem : List Byte) (data : Nat) (len : Int) (start_crc : U32)
    (iblk : Nat) (st : Option (List U32)) : Option (List U32) :=
  st.bind fun pcrcs =>
    match slice mem (data + (block_size * iblk).toNat)
        (block_len len iblk % 4294967296).toNat with
    | none => none
    | some buf =>
      if iblk < pcrcs.length then
        some (pcrcs.set iblk (z.crc32 (if iblk = 0 then start_crc else 0) buf))
      else none

/-- Sub-block `i` of a buffer: its bytes from `524288 * i` on, at most 524288
of them. -/
def sub_block (buf : List Byte) (i : Nat) : List Byte :=
  (buf.drop (524288 * i)).take 524288

/-- The value the parallel loop stores in slot `i` for the buffer `buf`. -/
def sub_crc (z : Zlib) (start_crc : U32) (buf : List Byte) (i : Nat) : U32 :=
  z.crc32 (if i = 0 then start_crc else 0) (sub_block buf i)

/-- The contents of the results vector after the parallel loop over `n`
sub-blocks of the buffer `buf`. -/
def sub_crcs (z : Zlib) (start_crc : U32) (buf : List Byte) (n : Nat) : List U32 :=
  (List.range n).map (sub_crc z start_crc buf)

/-- The event of the parallel loop for sub-block `i` of a buffer of `L` bytes at
`data`: the call of `crc32` on the bytes from offset `524288 * i` on, at most
524288 of them. -/
def task_event (data L : Nat) (start_crc : U32) (i : Nat) : Event :=
  Event.crc32 (if i = 0 then start_crc else 0) (data + 524288 * i)
    (min 524288 (L - 524288 * i))

/-- The running value of the reduction loop (lines 56-61) after the iterations
`1 .. k`. -/
def reduce_acc (z : Zlib) (len : Int) (pcrcs : List U32) : Nat → U32
  | 0 => pcrcs.getD 0 0
  | k + 1 =>
    z.crc32_combine (reduce_acc z len pcrcs k) (pcrcs.getD (k + 1) 0) (block_len len (k + 1))

/-- The event of iteration `i` of the reduction loop: the call of
`crc32_combine` with the running value, the result of sub-block `i` and the
length computed on line 59. -/
def combine_event (z : Zlib) (len : Int) (pcrcs : List U32) (i : Nat) : Event :=
  Event.crc32_combine (reduce_acc z len pcrcs (i - 1)) (pcrcs.getD i 0) (block_len len i)

/-- The length of sub-block `i` of `n` sub-blocks of a buffer of `L` bytes:
524288 for all but the last, and what is left for the last. -/
def sub_len (L n i : Nat) : Nat :=
  if i + 1 < n then 524288 else L - 524288 * (n - 1)

/-- The primitive calls of an event have a byte length between 1 and 524288. -/
def Event.bounded : Event → Bool
  | Event.crc32 _ _ len => decide (1 ≤ len ∧ len ≤ 524288)
  | Event.crc32_combine _ _ len2 => decide (1 ≤ len2 ∧ len2 ≤ 524288)
  | _ => true

/-- A computation that does not fault and whose primitive calls all have a
byte length between 1 and 524288. -/
def Run.bounded {α : Type} (x : Run α) : Prop :=
  ∃ a t, x = some (a, t) ∧ ∀ e ∈ t, Event.bounded e = true

/-- Lines 37-65 of `cgpt_crc32`, the part that does not call `cgpt_crc32`
again: the empty buffer and the sub-block branch, between the events of the
call and of its return. -/
def cgpt_crc32_leaf (z : Zlib) (sched : Schedule) (mem : List Byte) (data : Nat) (len : Int)
    (start_crc : U32) : Run U32 :=
  (Run.emit (Event.call data len start_crc)).bind fun _ =>
    Run.bind
      (if len = 0 then Run.pure start_crc
       else cgpt_crc32_blocks z sched mem data len start_crc)
      fun crc => (Run.emit (Event.ret crc)).bind fun _ => Run.pure crc

/-- Calls of `cgpt_crc32` on the ranges `(offset, length)` of the buffer at
`data`, one after the other, each seeded with the state that the call before it
returned and the first with `crc`. -/
def chained_calls (z : Zlib) (sched : Schedule) (mem : List Byte) (data : Nat) :
    List (Int × Int) → U32 → Run U32
  | [], crc => Run.pure crc
  | (blk, len) :: rest, crc =>
    (cgpt_crc32 z sched mem (data + blk.toNat) len crc).bind fun crc1 =>
      chained_calls z sched mem data rest crc1

/-- The ranges of `q` consecutive chunks of `step` bytes of a buffer of `len`
bytes, followed by the range of what is left. -/
def chunks (len : Int) (q : Nat) : List (Int × Int) :=
  (List.range q).map (fun (k : Nat) => ((k : Int) * step, step)) ++
    [((q : Int) * step, len - (q : Int) * step)]

/-- The loop of lines 70-79 with a fixed number of iterations and with calls
that do not recurse: `n` times the body `crc = leaf(&data[blk], step, crc);
blk += step; len -= step`, then the final call on what is left. -/
def cgpt_crc32_while_n (z : Zlib) (sched : Schedule) (mem : List Byte) (data : Nat) :
    Nat → U32 → Int → Int → Run U32
  | 0, crc, blk, len => cgpt_crc32_leaf z sched mem (data + blk.toNat) len crc
  | n + 1, crc, blk, len =>
    (cgpt_crc32_leaf z sched mem (data + blk.toNat) step crc).bind fun crc1 =>
      cgpt_crc32_while_n z sched mem data n crc1 (blk + step) (len - step)

/-- A buffer of `2^30 + 1` bytes, one byte longer than `step`. -/
def long_buffer : List Byte := List.replicate 1073741825 0x5A

/-- A buffer of `2^31` bytes, twice `step`. -/
def double_buffer : List Byte := List.replicate 2147483648 0x5A

/-- A buffer of 1200000 bytes, which has three sub-blocks. -/
def three_block_buffer : List Byte := List.replicate 1200000 0x5A

/-- The nine ASCII bytes `123456789`. -/
def check_string : List Byte := [0x31, 0x32, 0x33, 0x34, 0x35, 0x36, 0x37, 0x38, 0x39]

/-! ## Example records and files -/

/-- The shape descriptor of a record with one dimension. -/
def zero_shape : List Byte := [0, 0, 0, 0, 0, 0, 0, 0]

/-- A record with tag `A`, one dimension and the check string as payload; the
stored checksum is the CRC-32 of the payload. -/
def good_record : Record := ⟨[0x41], 0xCBF43926, 1, zero_shape, check_string⟩

/-- As `good_record`, with the stored checksum 0, which is not the CRC-32 of the
payload. -/
def bad_record : Record := ⟨[0x41], 0, 1, zero_shape, check_string⟩

/-- As `good_record`, with an empty tag (`tag_length = 0`). -/
def record_no_tag : Record := ⟨[], 0xCBF43926, 1, zero_shape, check_string⟩

/-- As `good_record`, with no dimensions (`num_dims = 0`). -/
def record_no_dims : Record := ⟨[0x41], 0xCBF43926, 0, [], check_string⟩

/-- A record with an empty payload (`payload_length = 0`); the stored checksum 0
is the CRC-32 of the empty payload. -/
def record_no_payload : Record := ⟨[0x41], 0, 1, zero_shape, []⟩

/-- As `bad_record`, with an empty tag. -/
def bad_record_no_tag : Record := ⟨[], 0, 1, zero_shape, check_string⟩

/-- A record that the documented layout admits, with `2^29 + 1` dimensions: its
shape descriptor has `8 * (2^29 + 1) = 2^32 + 8` bytes, all zero. -/
def wide_record : Record :=
  ⟨[0x41], 0xCBF43926, 536870913, List.replicate 4294967304 0, check_string⟩

/-- The shape descriptor of `skewed_record`: `2^32 + 8` bytes, all zero except
that the bytes 8 to 15 hold the 64-bit number 1. -/
def skewed_shape : List Byte :=
  List.replicate 8 0 ++ (le_bytes 8 1 ++ ([0] ++ List.replicate 4294967287 0))

/-- A record that the documented layout admits, with `2^29 + 1` dimensions and
the check string as payload; the stored checksum is the CRC-32 of the payload. -/
def skewed_record : Record :=
  ⟨[0x41], 0xCBF43926, 536870913, skewed_shape, check_string⟩

/-- The records of the example files, by file name. -/
def example_files (fn : String) : List Record :=
  if fn = "a.field" then [good_record, good_record] else []

/-- A file system with the file `a.field` of two good records, the empty file
`empty.field` and a file `b.field` with the given contents. -/
def example_fopen (b : List Byte) (fn : String) : Option (List Byte) :=
  if fn = "a.field" then some (file_bytes [good_record, good_record])
  else if fn = "empty.field" then some []
  else if fn = "b.field" then some b
  else none

/-! ## The reference model of zlib satisfies the laws of the primitives -/

theorem xor_div_two (a b : Nat) : (a ^^^ b) / 2 = a / 2 ^^^ b / 2 := by
  apply Nat.eq_of_testBit_eq
  intro i
  rw [Nat.testBit_xor, ← Nat.testBit_succ, ← Nat.testBit_succ, ← Nat.testBit_succ,
    Nat.testBit_xor]

theorem crc_bit_xor (a b : Nat) : crc_bit (a ^^^ b) = crc_bit a ^^^ crc_bit b := by
  unfold crc_bit
  rw [xor_div_two, Nat.xor_mod_two_eq]
  have ha := Nat.mod_two_eq_zero_or_one a
  have hb := Nat.mod_two_eq_zero_or_one b
  rcases ha with ha | ha <;> rcases hb with hb | hb
  · rw [if_neg (by omega), if_neg (by omega), if_neg (by omega)]
  · rw [if_pos (by omega), if_neg (by omega), if_pos (by omega), Nat.xor_assoc]
  · rw [if_pos (by omega), if_pos (by omega), if_neg (by omega), Nat.xor_assoc, Nat.xor_assoc,
      Nat.xor_comm (b / 2)]
  · rw [if_neg (by omega), if_pos (by omega), if_pos (by omega), Nat.xor_assoc,
      ← Nat.xor_assoc 3988292384, Nat.xor_comm 3988292384 (b / 2), Nat.xor_assoc (b / 2),
      Nat.xor_self, Nat.xor_zero]

theorem crc_bit_lt (c : Nat) (h : c < 4294967296) : crc_bit c < 4294967296 := by
  unfold crc_bit
  have h2 : c / 2 < 2 ^ 32 := by omega
  have hp : 0xEDB88320 < 2 ^ 32 := by norm_num
  split_ifs
  · exact Nat.xor_lt_two_pow h2 hp
  · omega

theorem crc_byte_xor (a c : Nat) (b : Byte) :
    crc_byte (a ^^^ c) b = crc_byte a b ^^^ crc_byte c 0 := by
  have e : a ^^^ c ^^^ b.val = (a ^^^ b.val) ^^^ (c ^^^ (0 : Byte).val) := by
    rw [Fin.val_zero, Nat.xor_zero, Nat.xor_assoc, Nat.xor_comm c, ← Nat.xor_assoc]
  unfold crc_byte
  rw [e]
  simp only [crc_bit_xor]

theorem crc_byte_lt (c : Nat) (b : Byte) (h : c < 4294967296) :
    crc_byte c b < 4294967296 := by
  have hb : b.val < 2 ^ 32 := by have := b.isLt; omega
  have hc : c < 2 ^ 32 := by omega
  have h0 : c ^^^ b.val < 4294967296 := Nat.xor_lt_two_pow hc hb
  unfold crc_byte
  exact crc_bit_lt _ (crc_bit_lt _ (crc_bit_lt _ (crc_bit_lt _ (crc_bit_lt _
    (crc_bit_lt _ (crc_bit_lt _ (crc_bit_lt _ h0)))))))

theorem foldl_crc_byte_lt (buf : List Byte) (c : Nat) (h : c < 4294967296) :
    buf.foldl crc_byte c < 4294967296 := by
  induction buf generalizing c with
  | nil => exact h
  | cons b bs ih => exact ih _ (crc_byte_lt c b h)

theorem iterate_crc_byte_lt (n : Nat) (c : Nat) (h : c < 4294967296) :
    (fun c => crc_byte c 0)^[n] c < 4294967296 := by
  induction n generalizing c with
  | zero => exact h
  | succ n ih =>
    rw [Function.iterate_succ_apply]
    exact ih _ (crc_byte_lt c 0 h)

/-- The register is linear: a difference in the start register is carried
through a buffer as if the buffer were all zero. -/
theorem foldl_crc_byte_xor (buf : List Byte) (a c : Nat) :
    buf.foldl crc_byte (a ^^^ c) =
      buf.foldl crc_byte a ^^^ (fun c => crc_byte c 0)^[buf.length] c := by
  induction buf generalizing a c with
  | nil => rfl
  | cons b bs ih =>
    rw [List.foldl_cons, List.foldl_cons, crc_byte_xor, ih, List.length_cons,
      Function.iterate_succ_apply]

theorem u32_ofNat_val (x : Nat) (h : x < 4294967296) : ((Fin.ofNat x : U32)).val = x := by
  show x % 4294967296 = x
  exact Nat.mod_eq_of_lt h

theorem zlib_crc32_val (s : U32) (buf : List Byte) :
    (zlib_crc32 s buf).val = buf.foldl crc_byte (s.val ^^^ 0xFFFFFFFF) ^^^ 0xFFFFFFFF := by
  have hs : s.val < 2 ^ 32 := s.isLt
  have hF : 0xFFFFFFFF < 2 ^ 32 := by norm_num
  have h1 : s.val ^^^ 0xFFFFFFFF < 4294967296 := Nat.xor_lt_two_pow hs hF
  have h2 : buf.foldl crc_byte (s.val ^^^ 0xFFFFFFFF) < 2 ^ 32 := foldl_crc_byte_lt buf _ h1
  exact u32_ofNat_val _ (Nat.xor_lt_two_pow h2 hF)

/-- The reference CRC-32 leaves the state unchanged on the empty buffer. -/
theorem zlib_crc32_nil (s : U32) : zlib.crc32 s [] = s := by
  apply Fin.ext
  show (zlib_crc32 s []).val = s.val
  rw [zlib_crc32_val, List.foldl_nil, Nat.xor_cancel_right]

/-- The reference `crc32_combine` joins the checksums of adjacent buffers. -/
theorem zlib_crc32_combine_law (s : U32) (A B : List Byte) :
    zlib.crc32_combine (zlib.crc32 s A) (zlib.crc32 0 B) (B.length : Int) =
      zlib.crc32 s (A ++ B) := by
  apply Fin.ext
  show (zlib_crc32_combine (zlib_crc32 s A) (zlib_crc32 0 B) (B.length : Int)).val =
    (zlib_crc32 s (A ++ B)).val
  have hs : s.val < 2 ^ 32 := s.isLt
  have hF : 0xFFFFFFFF < 2 ^ 32 := by norm_num
  have hA : (zlib_crc32 s A).val < 4294967296 := (zlib_crc32 s A).isLt
  have hB : (zlib_crc32 0 B).val < 2 ^ 32 := (zlib_crc32 0 B).isLt
  have hit : (fun c => crc_byte c 0)^[B.length] (zlib_crc32 s A).val < 2 ^ 32 :=
    iterate_crc_byte_lt _ _ hA
  unfold zlib_crc32_combine
  rw [Int.toNat_ofNat, u32_ofNat_val _ (Nat.xor_lt_two_pow hit hB), zlib_crc32_val s (A ++ B),
    List.foldl_append, zlib_crc32_val 0 B, Fin.val_zero, Nat.zero_xor]
  obtain ⟨r, hr⟩ : ∃ r, List.foldl crc_byte (s.val ^^^ 0xFFFFFFFF) A = r := ⟨_, rfl⟩
  have hAv : (zlib_crc32 s A).val = r ^^^ 0xFFFFFFFF := by rw [zlib_crc32_val, hr]
  rw [hAv, hr]
  have key : List.foldl crc_byte r B =
      List.foldl crc_byte 0xFFFFFFFF B ^^^
        (fun c => crc_byte c 0)^[B.length] (r ^^^ 0xFFFFFFFF) := by
    have h := foldl_crc_byte_xor B 0xFFFFFFFF (r ^^^ 0xFFFFFFFF)
    rw [Nat.xor_comm r, Nat.xor_cancel_left, Nat.xor_comm 0xFFFFFFFF r] at h
    exact h
  rw [key]
  generalize List.foldl crc_byte 0xFFFFFFFF B = X
  generalize (fun c => crc_byte c 0)^[B.length] (r ^^^ 0xFFFFFFFF) = Y
  rw [← Nat.xor_assoc, Nat.xor_comm Y X]

/-! ## Computations -/

theorem Run.value_bind {α β : Type} (x : Run α) (f : α → Run β) :
    (x.bind f).value = x.value.bind fun a => (f a).value := by
  unfold Run.bind Run.value
  rcases x with _ | ⟨a, t⟩
  · rfl
  · rcases h : f a with _ | ⟨b, u⟩ <;> simp [h]

theorem Run.value_eq_some {α : Type} {x : Run α} {a : α} :
    x.value = some a ↔ ∃ t, x = some (a, t) := by
  unfold Run.value
  rcases x with _ | ⟨b, t⟩ <;> simp

/-! ## The parallel loop -/

theorem block_task_value_eq (z : Zlib) (mem : List Byte) (data : Nat) (len : Int)
    (start_crc : U32) (iblk : Nat) (st : Run (List U32)) :
    (block_task z mem data len start_crc iblk st).value =
      block_task_value z mem data len start_crc iblk st.value := by
  unfold block_task block_task_value
  rw [Run.value_bind]
  congr 1
  funext pcrcs
  dsimp only
  split
  · rfl
  · split_ifs <;> rfl

theorem block_task_value_comm (z : Zlib) (mem : List Byte) (data : Nat) (len : Int)
    (start_crc : U32) (i j : Nat) (st : Option (List U32)) :
    block_task_value z mem data len start_crc i
        (block_task_value z mem data len start_crc j st) =
      block_task_value z mem data len start_crc j
        (block_task_value z mem data len start_crc i st) := by
  by_cases hij : i = j
  · subst hij; rfl
  unfold block_task_value
  rcases st with _ | p
  · rfl
  simp only [Option.some_bind]
  rcases slice mem (data + (block_size * (i : Int)).toNat)
      (block_len len i % 4294967296).toNat with _ | bi <;>
    rcases slice mem (data + (block_size * (j : Int)).toNat)
      (block_len len j % 4294967296).toNat with _ | bj <;>
    simp only [Option.bind] <;>
    by_cases hi : i < p.length <;> by_cases hj : j < p.length <;>
    simp [hi, hj, List.set_comm _ _ _ (Ne.symm hij)]

theorem foldl_block_task_value (z : Zlib) (mem : List Byte) (data : Nat) (len : Int)
    (start_crc : U32) (l : List Nat) (st : Run (List U32)) :
    (l.foldl (fun s i => block_task z mem data len start_crc i s) st).value =
      l.foldl (fun s i => block_task_value z mem data len start_crc i s) st.value := by
  induction l generalizing st with
  | nil => rfl
  | cons i l ih => simp only [List.foldl_cons]; rw [ih, block_task_value_eq]

/-- The results vector does not depend on the order in which the iterations of
the parallel loop take effect. -/
theorem pcrcs_value_order (z : Zlib) (sched : Schedule) (mem : List Byte) (data : Nat)
    (len : Int) (start_crc : U32) :
    (cgpt_crc32_pcrcs z sched mem data len start_crc).value =
      (cgpt_crc32_pcrcs z Schedule.sequential mem data len start_crc).value := by
  unfold cgpt_crc32_pcrcs thread_for
  split_ifs
  · rfl
  · rw [foldl_block_task_value, foldl_block_task_value]
    exact List.Perm.foldl_eq' (sched.valid _)
      (fun x _ y _ st => block_task_value_comm z mem data len start_crc y x st) _

/-! ## Sub-block arithmetic for a buffer of `L` bytes -/

theorem blocks_natCast (L : Nat) : blocks (L : Int) = (((L + 524287) / 524288 : Nat) : Int) := by
  unfold blocks block_size
  rw [Int.tmod_eq_emod (by omega) (by omega), Int.tdiv_eq_ediv (by omega) (by omega)]
  split_ifs <;> omega

/-- The number of sub-blocks of a buffer of `L` bytes: the least `n` with
`L <= 524288 * n`. -/
theorem blocks_spec (L : Nat) :
    ∃ n : Nat, blocks (L : Int) = (n : Int) ∧ (∀ i, i < n → 524288 * i < L) ∧
      L ≤ 524288 * n ∧ (0 < L → 0 < n) ∧ (L ≤ 524288 → n ≤ 1) :=
  ⟨(L + 524287) / 524288, blocks_natCast L, fun i hi => by omega, by omega, by omega,
    by omega⟩

theorem block_len_natCast (L i : Nat) :
    block_len (L : Int) i = min (524288 : Int) ((L : Int) - 524288 * (i : Int)) := by
  unfold block_len block_size
  norm_num

theorem slice_sub_block (mem : List Byte) (data L i : Nat) (hL : data + L ≤ mem.length)
    (hi : 524288 * i < L) :
    slice mem (data + (block_size * (i : Int)).toNat)
        (block_len (L : Int) i % 4294967296).toNat =
      some (sub_block ((mem.drop data).take L) i) := by
  have e1 : (block_size * (i : Int)).toNat = 524288 * i := by unfold block_size; omega
  have e2 : (block_len (L : Int) i % 4294967296).toNat = min 524288 (L - 524288 * i) := by
    rw [block_len_natCast]; omega
  rw [e1, e2]
  unfold slice sub_block
  rw [if_pos (by omega)]
  congr 1
  rw [List.drop_take, List.take_take, List.drop_drop]

theorem sub_block_length (buf : List Byte) (i : Nat) :
    ((sub_block buf i).length : Int) = max 0 (block_len (buf.length : Int) i) := by
  rw [block_len_natCast]
  unfold sub_block
  rw [List.length_take, List.length_drop]
  omega

theorem take_sub_block (buf : List Byte) (m : Nat) :
    buf.take (524288 * m) ++ sub_block buf m = buf.take (524288 * (m + 1)) := by
  unfold sub_block
  rw [Nat.mul_succ, List.take_add]

/-! ## The branch `len <= step` on a buffer that lies inside the memory -/

theorem block_task_value_some (z : Zlib) (mem : List Byte) (data L : Nat) (start_crc : U32)
    (i : Nat) (p : List U32) (hL : data + L ≤ mem.length) (hi : 524288 * i < L)
    (hp : i < p.length) :
    block_task_value z mem data (L : Int) start_crc i (some p) =
      some (p.set i (sub_crc z start_crc ((mem.drop data).take L) i)) := by
  unfold block_task_value
  simp only [Option.some_bind]
  rw [slice_sub_block mem data L i hL hi]
  simp only [hp, if_true]
  rfl

theorem foldl_range_block_task_value (z : Zlib) (mem : List Byte) (data L : Nat)
    (start_crc : U32) (hL : data + L ≤ mem.length) (n : Nat)
    (hn : ∀ i, i < n → 524288 * i < L) (k : Nat) (hk : k ≤ n) :
    (List.range k).foldl (fun s i => block_task_value z mem data (L : Int) start_crc i s)
        (some (List.replicate n 0)) =
      some ((List.range k).map (sub_crc z start_crc ((mem.drop data).take L)) ++
        List.replicate (n - k) 0) := by
  induction k with
  | zero => simp
  | succ k ih =>
    rw [List.range_succ, List.foldl_append, ih (by omega)]
    simp only [List.foldl_cons, List.foldl_nil]
    rw [block_task_value_some z mem data L start_crc k _ hL (hn k (by omega))
      (by simp only [List.length_append, List.length_map, List.length_range,
            List.length_replicate]; omega)]
    congr 1
    rw [List.set_append_right _ _ (by simp)]
    obtain ⟨m, hm⟩ : ∃ m, n - k = m + 1 := ⟨n - k - 1, by omega⟩
    have hm2 : n - (k + 1) = m := by omega
    rw [hm, hm2, List.replicate_succ]
    simp

theorem pcrcs_value_range (z : Zlib) (mem : List Byte) (data L : Nat) (start_crc : U32)
    (hL : data + L ≤ mem.length) (n : Nat) (hb : blocks (L : Int) = (n : Int))
    (hn : ∀ i, i < n → 524288 * i < L) :
    (cgpt_crc32_pcrcs z Schedule.sequential mem data (L : Int) start_crc).value =
      some ((List.range n).map (sub_crc z start_crc ((mem.drop data).take L))) := by
  unfold cgpt_crc32_pcrcs thread_for
  rw [hb, if_neg (by omega), foldl_block_task_value, Int.toNat_ofNat]
  have h := foldl_range_block_task_value z mem data L start_crc hL n hn n (le_refl _)
  rw [Nat.sub_self, List.replicate_zero, List.append_nil] at h
  exact h

theorem reduce_step_value (z : Zlib) (len : Int) (pcrcs : List U32) (acc : Run U32)
    (i : Nat) :
    (reduce_step z len pcrcs acc i).value =
      acc.value.bind fun crc =>
        pcrcs[i]?.map fun p => z.crc32_combine crc p (block_len len i) := by
  unfold reduce_step
  rw [Run.value_bind]
  congr 1
  funext crc
  rcases pcrcs[i]? with _ | p <;> rfl

theorem foldl_reduce_step_value (z : Zlib) (start_crc : U32) (buf : List Byte)
    (h_combine : ∀ s A B, z.crc32_combine (z.crc32 s A) (z.crc32 0 B) (B.length : Int) =
      z.crc32 s (A ++ B))
    (n : Nat) (hn : ∀ i, i < n → 524288 * i < buf.length)
    (acc : Run U32) (hacc : acc.value = some (z.crc32 start_crc (sub_block buf 0)))
    (m : Nat) (hm : m + 1 ≤ n) :
    ((List.range' 1 m).foldl
        (reduce_step z (buf.length : Int) ((List.range n).map (sub_crc z start_crc buf)))
        acc).value =
      some (z.crc32 start_crc (buf.take (524288 * (m + 1)))) := by
  induction m with
  | zero =>
    rw [List.range'_zero, List.foldl_nil, hacc]
    unfold sub_block
    rw [Nat.mul_zero, List.drop_zero, Nat.zero_add, Nat.mul_one]
  | succ m ih =>
    rw [List.range'_concat, List.foldl_append, List.foldl_cons, List.foldl_nil,
      reduce_step_value, ih (by omega), Option.some_bind]
    have e : 1 + 1 * m = m + 1 := by omega
    rw [e, List.getElem?_map, List.getElem?_range (by omega), Option.map_some',
      Option.map_some']
    congr 1
    have hlt := hn (m + 1) (by omega)
    have hb : ((sub_block buf (m + 1)).length : Int) = block_len (buf.length : Int) (m + 1) := by
      rw [sub_block_length, block_len_natCast]
      omega
    unfold sub_crc
    rw [if_neg (by omega), ← hb, h_combine, take_sub_block]

theorem cgpt_crc32_blocks_value (z : Zlib) (sched : Schedule) (mem : List Byte)
    (data L : Nat) (start_crc : U32)
    (h_combine : ∀ s A B, z.crc32_combine (z.crc32 s A) (z.crc32 0 B) (B.length : Int) =
      z.crc32 s (A ++ B))
    (hL : data + L ≤ mem.length) (hpos : 0 < L) :
    (cgpt_crc32_blocks z sched mem data (L : Int) start_crc).value =
      some (z.crc32 start_crc ((mem.drop data).take L)) := by
  have hlen : ((mem.drop data).take L).length = L := by
    rw [List.length_take, List.length_drop]; omega
  obtain ⟨n, hb, hn, hcover, hn0, -⟩ := blocks_spec L
  have hn1 := hn0 hpos
  unfold cgpt_crc32_blocks
  rw [Run.value_bind, pcrcs_value_order z sched mem data _ start_crc,
    pcrcs_value_range z mem data L start_crc hL n hb hn, Option.some_bind]
  unfold cgpt_crc32_reduce
  rw [hb, Int.toNat_ofNat, List.getElem?_map, List.getElem?_range hn1, Option.map_some']
  have key := foldl_reduce_step_value z start_crc ((mem.drop data).take L) h_combine n
    (fun i hi => by rw [hlen]; exact hn i hi)
    (Run.pure (sub_crc z start_crc ((mem.drop data).take L) 0)) rfl
    (n - 1) (by omega)
  rw [hlen] at key
  have hall : List.take (524288 * (n - 1 + 1)) ((mem.drop data).take L) =
      (mem.drop data).take L :=
    List.take_of_length_le (by rw [hlen, Nat.sub_add_cancel hn1]; exact hcover)
  rw [hall] at key
  exact key

/-! ## The whole function -/

theorem Run.value_wrap (e : Event) (x : Run U32) :
    ((Run.emit e).bind fun _ =>
      x.bind fun crc => (Run.emit (Event.ret crc)).bind fun _ => Run.pure crc).value =
      x.value := by
  rcases x with _ | ⟨a, t⟩ <;> rfl

theorem cgpt_crc32_value (z : Zlib) (sched : Schedule) (mem : List Byte) (data : Nat)
    (len : Int) (start_crc : U32) :
    (cgpt_crc32 z sched mem data len start_crc).value =
      if len = 0 then some start_crc
      else if len ≤ step then (cgpt_crc32_blocks z sched mem data len start_crc).value
      else (cgpt_crc32_while z sched mem data start_crc 0 len).value := by
  rw [cgpt_crc32, Run.value_wrap]
  split_ifs <;> rfl

theorem cgpt_crc32_while_value (z : Zlib) (sched : Schedule) (mem : List Byte) (data : Nat)
    (crc : U32) (blk len : Int) :
    (cgpt_crc32_while z sched mem data crc blk len).value =
      if len > step then
        (cgpt_crc32 z sched mem (data + blk.toNat) step crc).value.bind fun crc1 =>
          (cgpt_crc32_while z sched mem data crc1 (blk + step) (len - step)).value
      else (cgpt_crc32 z sched mem (data + blk.toNat) len crc).value := by
  rw [cgpt_crc32_while]
  split_ifs
  · rw [Run.value_bind]
  · rfl

/-- Feeding a buffer in two parts, the second seeded with the state after the
first, follows from the two laws of the primitives. -/
theorem crc32_append (z : Zlib)
    (h_nil : ∀ s, z.crc32 s [] = s)
    (h_combine : ∀ s A B, z.crc32_combine (z.crc32 s A) (z.crc32 0 B) (B.length : Int) =
      z.crc32 s (A ++ B))
    (s : U32) (A B : List Byte) : z.crc32 (z.crc32 s A) B = z.crc32 s (A ++ B) := by
  have h := h_combine (z.crc32 s A) [] B
  rw [h_nil, List.nil_append] at h
  rw [← h, h_combine]

theorem cgpt_crc32_value_le_step (z : Zlib) (sched : Schedule) (mem : List Byte)
    (data L : Nat) (start_crc : U32)
    (h_nil : ∀ s, z.crc32 s [] = s)
    (h_combine : ∀ s A B, z.crc32_combine (z.crc32 s A) (z.crc32 0 B) (B.length : Int) =
      z.crc32 s (A ++ B))
    (hL : data + L ≤ mem.length) (hstep : L ≤ 1073741824) :
    (cgpt_crc32 z sched mem data (L : Int) start_crc).value =
      some (z.crc32 start_crc ((mem.drop data).take L)) := by
  rw [cgpt_crc32_value]
  by_cases h0 : L = 0
  · subst h0
    simp [h_nil]
  · rw [if_neg (by omega), if_pos (by unfold step; omega)]
    exact cgpt_crc32_blocks_value z sched mem data L start_crc h_combine hL (by omega)

theorem cgpt_crc32_while_value_eq (z : Zlib) (sched : Schedule) (mem : List Byte)
    (data : Nat)
    (h_nil : ∀ s, z.crc32 s [] = s)
    (h_combine : ∀ s A B, z.crc32_combine (z.crc32 s A) (z.crc32 0 B) (B.length : Int) =
      z.crc32 s (A ++ B))
    (L : Nat) : ∀ (blk : Nat) (crc : U32), data + blk + L ≤ mem.length →
      (cgpt_crc32_while z sched mem data crc (blk : Int) (L : Int)).value =
        some (z.crc32 crc ((mem.drop (data + blk)).take L)) := by
  induction L using Nat.strong_induction_on with
  | _ L ih =>
    intro blk crc hL
    rw [cgpt_crc32_while_value]
    by_cases hgt : 1073741824 < L
    · rw [if_pos (by unfold step; omega)]
      have e1 : (step : Int) = ((1073741824 : Nat) : Int) := by unfold step; norm_num
      have e2 : (blk : Int) + step = ((blk + 1073741824 : Nat) : Int) := by
        unfold step; push_cast; ring
      have e3 : (L : Int) - step = ((L - 1073741824 : Nat) : Int) := by
        unfold step; omega
      rw [e2, e3, e1, Int.toNat_ofNat,
        cgpt_crc32_value_le_step z sched mem (data + blk) 1073741824 crc h_nil h_combine
          (by omega) (le_refl _), Option.some_bind]
      rw [ih (L - 1073741824) (by omega) (blk + 1073741824) _ (by omega),
        crc32_append z h_nil h_combine]
      congr 2
      have e4 : L = 1073741824 + (L - 1073741824) := by omega
      conv_rhs => rw [e4, List.take_add]
      rw [List.drop_drop, Nat.add_assoc]
    · rw [if_neg (by unfold step; omega), Int.toNat_ofNat]
      exact cgpt_crc32_value_le_step z sched mem (data + blk) L crc h_nil h_combine
        (by omega) (by omega)

/-- A buffer of at most one sub-block is hashed by a single call of the
primitive, whatever the primitives are. -/
theorem cgpt_crc32_blocks_value_single (z : Zlib) (sched : Schedule) (mem : List Byte)
    (data L : Nat) (start_crc : U32) (hL : data + L ≤ mem.length) (hpos : 0 < L)
    (hone : L ≤ 524288) :
    (cgpt_crc32_blocks z sched mem data (L : Int) start_crc).value =
      some (z.crc32 start_crc ((mem.drop data).take L)) := by
  have hlen : ((mem.drop data).take L).length = L := by
    rw [List.length_take, List.length_drop]; omega
  obtain ⟨n, hb, hn, -, hn0, hle⟩ := blocks_spec L
  have hn1 : n = 1 := by have := hn0 hpos; have := hle hone; omega
  subst hn1
  unfold cgpt_crc32_blocks
  rw [Run.value_bind, pcrcs_value_order z sched mem data _ start_crc,
    pcrcs_value_range z mem data L start_crc hL 1 hb hn, Option.some_bind]
  unfold cgpt_crc32_reduce
  rw [hb, Int.toNat_ofNat, List.getElem?_map, List.getElem?_range Nat.one_pos,
    Option.map_some']
  have hsub : sub_block ((mem.drop data).take L) 0 = (mem.drop data).take L := by
    unfold sub_block
    rw [Nat.mul_zero, List.drop_zero]
    exact List.take_of_length_le (by omega)
  unfold sub_crc
  rw [hsub, if_pos rfl]
  rfl

set_option maxRecDepth 100000 in
theorem zlib_crc32_check_string : zlib_crc32 0 check_string = 0xCBF43926 := by
  decide

theorem cgpt_crc32_value_eq (z : Zlib) (sched : Schedule) (mem : List Byte)
    (data L : Nat) (start_crc : U32)
    (h_nil : ∀ s, z.crc32 s [] = s)
    (h_combine : ∀ s A B, z.crc32_combine (z.crc32 s A) (z.crc32 0 B) (B.length : Int) =
      z.crc32 s (A ++ B))
    (hL : data + L ≤ mem.length) :
    (cgpt_crc32 z sched mem data (L : Int) start_crc).value =
      some (z.crc32 start_crc ((mem.drop data).take L)) := by
  by_cases hstep : L ≤ 1073741824
  · exact cgpt_crc32_value_le_step z sched mem data L start_crc h_nil h_combine hL hstep
  · rw [cgpt_crc32_value, if_neg (by omega), if_neg (by unfold step; omega)]
    have h := cgpt_crc32_while_value_eq z sched mem data h_nil h_combine L 0 start_crc
      (by omega)
    rw [Nat.cast_zero, Nat.add_zero] at h
    exact h

/-! ## Independence of the schedule -/

theorem cgpt_crc32_blocks_value_sched (z : Zlib) (sched : Schedule) (mem : List Byte)
    (data : Nat) (len : Int) (start_crc : U32) :
    (cgpt_crc32_blocks z sched mem data len start_crc).value =
      (cgpt_crc32_blocks z Schedule.sequential mem data len start_crc).value := by
  unfold cgpt_crc32_blocks
  rw [Run.value_bind, Run.value_bind, pcrcs_value_order]

theorem cgpt_crc32_value_sched_le (z : Zlib) (sched : Schedule) (mem : List Byte)
    (data : Nat) (len : Int) (start_crc : U32) (h : len ≤ step) :
    (cgpt_crc32 z sched mem data len start_crc).value =
      (cgpt_crc32 z Schedule.sequential mem data len start_crc).value := by
  rw [cgpt_crc32_value, cgpt_crc32_value, if_pos h, if_pos h, cgpt_crc32_blocks_value_sched]

theorem cgpt_crc32_while_value_sched (z : Zlib) (sched : Schedule) (mem : List Byte)
    (data : Nat) (n : Nat) : ∀ (len blk : Int) (crc : U32), len.toNat = n →
      (cgpt_crc32_while z sched mem data crc blk len).value =
        (cgpt_crc32_while z Schedule.sequential mem data crc blk len).value := by
  induction n using Nat.strongRecOn with
  | ind n ih =>
    intro len blk crc hn
    rw [cgpt_crc32_while_value, cgpt_crc32_while_value]
    by_cases hgt : len > step
    · rw [if_pos hgt, if_pos hgt, cgpt_crc32_value_sched_le z sched mem _ step crc (le_refl _)]
      congr 1
      funext crc1
      have hlt : (len - step).toNat < n := by
        unfold step at hgt ⊢
        omega
      exact ih (len - step).toNat hlt (len - step) (blk + step) crc1 rfl
    · rw [if_neg hgt, if_neg hgt]
      exact cgpt_crc32_value_sched_le z sched mem _ len crc (by omega)

theorem cgpt_crc32_value_sched (z : Zlib) (sched : Schedule) (mem : List Byte)
    (data : Nat) (len : Int) (start_crc : U32) :
    (cgpt_crc32 z sched mem data len start_crc).value =
      (cgpt_crc32 z Schedule.sequential mem data len start_crc).value := by
  by_cases h : len ≤ step
  · exact cgpt_crc32_value_sched_le z sched mem data len start_crc h
  · have h0 : len ≠ 0 := by
      intro h0
      rw [h0] at h
      exact h (by unfold step; omega)
    rw [cgpt_crc32_value, cgpt_crc32_value, if_neg h0, if_neg h0, if_neg h, if_neg h]
    exact cgpt_crc32_while_value_sched z sched mem data len.toNat len 0 start_crc rfl

/-! ## Results on the checksum engine -/

/-- Claim C1: for every byte buffer, of any length (also above `step = 2^30`),
and every start state `s`, `cgpt_crc32(buffer, len, s)` returns the sequential
single-pass value `crc32(s, buffer)`, provided the primitives satisfy
`crc32(s, empty) = s` and
`crc32_combine(crc32(s, A), crc32(0, B), |B|) = crc32(s, A ++ B)`.  This holds
under every schedule of the parallel loop. -/
theorem cgpt_crc32_sequential (z : Zlib) (sched : Schedule)
    (h_nil : ∀ s, z.crc32 s [] = s)
    (h_combine : ∀ s A B, z.crc32_combine (z.crc32 s A) (z.crc32 0 B) (B.length : Int) =
      z.crc32 s (A ++ B))
    (buffer : List Byte) (s : U32) :
    (cgpt_crc32 z sched buffer 0 (buffer.length : Int) s).value =
      some (z.crc32 s buffer) := by
  have h := cgpt_crc32_value_eq z sched buffer 0 buffer.length s h_nil h_combine
    (by omega)
  rw [List.drop_zero, List.take_length] at h
  exact h

/-- Claim C1, instance: the reference model of zlib has both laws, and the
result applies to a buffer one byte longer than `step`. -/
theorem cgpt_crc32_sequential_witness :
    (∀ s, zlib.crc32 s [] = s) ∧
    (∀ s A B, zlib.crc32_combine (zlib.crc32 s A) (zlib.crc32 0 B) (B.length : Int) =
      zlib.crc32 s (A ++ B)) ∧
    (cgpt_crc32 zlib Schedule.sequential long_buffer 0 (long_buffer.length : Int) 7).value =
      some (zlib.crc32 7 long_buffer) :=
  ⟨zlib_crc32_nil, zlib_crc32_combine_law,
    cgpt_crc32_sequential zlib Schedule.sequential zlib_crc32_nil zlib_crc32_combine_law
      long_buffer 7⟩

/-- Claim C2: additivity.  For every buffer `P ++ S`, split at any byte offset
(also with `P` or `S` empty, and at offsets that are no multiple of the
sub-block size), the engine's value `p` for the part `P` from state `start` and
its value `q` for the part `S` from state 0 exist and
`crc32_combine(p, q, |S|)` is the engine's value for the whole buffer from
`start`; the primitives are taken to satisfy their two laws. -/
theorem cgpt_crc32_additive (z : Zlib) (sched : Schedule)
    (h_nil : ∀ s, z.crc32 s [] = s)
    (h_combine : ∀ s A B, z.crc32_combine (z.crc32 s A) (z.crc32 0 B) (B.length : Int) =
      z.crc32 s (A ++ B))
    (P S : List Byte) (start : U32) :
    ∃ p q : U32,
      (cgpt_crc32 z sched (P ++ S) 0 (P.length : Int) start).value = some p ∧
      (cgpt_crc32 z sched (P ++ S) P.length (S.length : Int) 0).value = some q ∧
      (cgpt_crc32 z sched (P ++ S) 0 ((P ++ S).length : Int) start).value =
        some (z.crc32_combine p q (S.length : Int)) := by
  refine ⟨z.crc32 start P, z.crc32 0 S, ?_, ?_, ?_⟩
  · have h := cgpt_crc32_value_eq z sched (P ++ S) 0 P.length start h_nil h_combine
      (by rw [List.length_append]; omega)
    rw [List.drop_zero, List.take_left] at h
    exact h
  · have h := cgpt_crc32_value_eq z sched (P ++ S) P.length S.length 0 h_nil h_combine
      (by rw [List.length_append])
    rw [List.drop_left, List.take_length] at h
    exact h
  · rw [h_combine]
    have h := cgpt_crc32_value_eq z sched (P ++ S) 0 (P ++ S).length start h_nil h_combine
      (by omega)
    rw [List.drop_zero, List.take_length] at h
    exact h

/-- Claim C2, instance: the reference model of zlib, the check string split
after its fourth byte. -/
theorem cgpt_crc32_additive_witness :
    (∀ s, zlib.crc32 s [] = s) ∧
    (∀ s A B, zlib.crc32_combine (zlib.crc32 s A) (zlib.crc32 0 B) (B.length : Int) =
      zlib.crc32 s (A ++ B)) ∧
    ∃ p q : U32,
      (cgpt_crc32 zlib Schedule.sequential (check_string.take 4 ++ check_string.drop 4) 0
        ((check_string.take 4).length : Int) 0).value = some p ∧
      (cgpt_crc32 zlib Schedule.sequential (check_string.take 4 ++ check_string.drop 4)
        (check_string.take 4).length ((check_string.drop 4).length : Int) 0).value = some q ∧
      (cgpt_crc32 zlib Schedule.sequential (check_string.take 4 ++ check_string.drop 4) 0
        ((check_string.take 4 ++ check_string.drop 4).length : Int) 0).value =
        some (zlib.crc32_combine p q ((check_string.drop 4).length : Int)) :=
  ⟨zlib_crc32_nil, zlib_crc32_combine_law,
    cgpt_crc32_additive zlib Schedule.sequential zlib_crc32_nil zlib_crc32_combine_law
      (check_string.take 4) (check_string.drop 4) 0⟩

/-- Claim C3: called with `len = 0`, `cgpt_crc32` returns the start state `s`
unchanged, for every state and every data pointer; its only events are its own
entry and return, so neither `crc32` nor `crc32_combine` is called and no
results vector is created. -/
theorem cgpt_crc32_len_zero (z : Zlib) (sched : Schedule) (mem : List Byte) (data : Nat)
    (s : U32) :
    cgpt_crc32 z sched mem data 0 s = some (s, [Event.call data 0 s, Event.ret s]) := by
  rw [cgpt_crc32, if_pos rfl]
  rfl

/-- Claim C4: on the nine ASCII bytes `123456789` with start state 0,
`cgpt_crc32` returns `0xCBF43926`, the primitive `crc32` being the standard
reflected CRC-32 (polynomial `0xEDB88320`, initial and final XOR `0xFFFFFFFF`);
`crc32_combine` and the schedule play no part. -/
theorem cgpt_crc32_check_value (combine : U32 → U32 → Int → U32) (sched : Schedule) :
    (cgpt_crc32 ⟨zlib_crc32, combine⟩ sched check_string 0 9 0).value =
      some 0xCBF43926 := by
  have e : (9 : Int) = ((9 : Nat) : Int) := rfl
  rw [cgpt_crc32_value, if_neg (by decide), if_pos (by unfold step; decide), e,
    cgpt_crc32_blocks_value_single ⟨zlib_crc32, combine⟩ sched check_string 0 9 0
      (by decide) (by decide) (by decide), List.drop_zero]
  have e9 : List.take 9 check_string = check_string := by decide
  rw [e9, show (⟨zlib_crc32, combine⟩ : Zlib).crc32 = zlib_crc32 from rfl,
    zlib_crc32_check_string]

/-- Claim C5: the value returned by `cgpt_crc32`, and the results vector
`pcrcs` after the parallel loop, do not depend on the order in which the
sub-block tasks take effect: any two schedules (each runs every block index
exactly once, in any order) give the same vector and the same checksum. -/
theorem cgpt_crc32_schedule_independent (z : Zlib) (sched1 sched2 : Schedule)
    (mem : List Byte) (data : Nat) (len : Int) (start_crc : U32) :
    (cgpt_crc32_pcrcs z sched1 mem data len start_crc).value =
        (cgpt_crc32_pcrcs z sched2 mem data len start_crc).value ∧
      (cgpt_crc32 z sched1 mem data len start_crc).value =
        (cgpt_crc32 z sched2 mem data len start_crc).value := by
  constructor
  · rw [pcrcs_value_order z sched1, pcrcs_value_order z sched2]
  · rw [cgpt_crc32_value_sched z sched1, cgpt_crc32_value_sched z sched2]

theorem le_bytes_length (w n : Nat) : (le_bytes w n).length = w := by
  induction w generalizing n with
  | zero => rfl
  | succ w ih => rw [le_bytes, List.length_cons, ih]

theorem le_value_le_bytes (w n : Nat) (h : n < 256 ^ w) : le_value (le_bytes w n) = n := by
  induction w generalizing n with
  | zero =>
    rw [pow_zero] at h
    have h0 : n = 0 := by omega
    subst h0
    rfl
  | succ w ih =>
    have h1 : n / 256 < 256 ^ w := by
      rw [pow_succ] at h
      exact Nat.div_lt_of_lt_mul (by rw [Nat.mul_comm]; exact h)
    have h2 : ((Fin.ofNat (n % 256) : Byte)).val = n % 256 := by
      show n % 256 % 256 = n % 256
      exact Nat.mod_eq_of_lt (Nat.mod_lt _ (by omega))
    have h3 : le_value (le_bytes (w + 1) n) =
        ((Fin.ofNat (n % 256) : Byte)).val + 256 * le_value (le_bytes w (n / 256)) := rfl
    rw [h3, h2, ih _ h1]
    omega

theorem fread_append (cap : Nat) (bs rest : List Byte) (e : Bool)
    (h0 : 0 < bs.length) (hcap : bs.length ≤ cap) :
    fread cap bs.length ⟨bs ++ rest, e⟩ = some (1, bs, ⟨rest, e⟩) := by
  unfold fread
  rw [if_neg (by omega), if_pos (by simp), if_pos hcap, List.take_left, List.drop_left]

theorem assert_fread_append (cap : Nat) (bs rest : List Byte) (e : Bool)
    (k : List Byte → FILE → Iter × List Verdict × List Event)
    (h0 : 0 < bs.length) (hcap : bs.length ≤ cap) :
    assert_fread cap bs.length ⟨bs ++ rest, e⟩ k = k bs ⟨rest, e⟩ := by
  unfold assert_fread
  rw [fread_append cap bs rest e h0 hcap]
  rfl

/-- An asserted read of size 0 aborts the program. -/
theorem assert_fread_zero (cap : Nat) (f : FILE)
    (k : List Byte → FILE → Iter × List Verdict × List Event) :
    assert_fread cap 0 f k = (Iter.stop Outcome.abort, [], []) := by
  unfold assert_fread fread
  rfl

/-- An asserted read that finds fewer bytes than it asks for aborts the
program. -/
theorem assert_fread_short (cap size : Nat) (f : FILE)
    (k : List Byte → FILE → Iter × List Verdict × List Event)
    (hshort : f.rest.length < size) (hcap : f.rest.length ≤ cap) :
    assert_fread cap size f k = (Iter.stop Outcome.abort, [], []) := by
  unfold assert_fread fread
  rw [if_neg (by omega), if_neg (by omega), if_pos hcap]
  rfl

theorem to_int64_of_lt (size : Nat) (h : size < 9223372036854775808) :
    to_int64 size = (size : Int) := by
  unfold to_int64
  have e : size % 18446744073709551616 = size := Nat.mod_eq_of_lt (by omega)
  rw [e, if_pos h]

theorem u32_ofNat_self (c : U32) : (Fin.ofNat c.val : U32) = c := by
  apply Fin.ext
  exact u32_ofNat_val c.val c.isLt

/-- On a stream that begins with a readable record the body of the loop reads
the whole header and the payload, and hashes the payload. -/
theorem record_readable (z : Zlib) (sched : Schedule) (r : Record) (tail : List Byte)
    (e : Bool) (hr : r.readable) :
    record z sched ⟨r.bytes ++ tail, e⟩ =
      check z sched r.reference_crc32 r.payload.length r.payload ⟨tail, e⟩ := by
  obtain ⟨ht0, ht1, hd0, hd1, hs, hp0, hp1⟩ := hr
  have v1 : le_value (le_bytes 4 r.tag.length) = r.tag.length :=
    le_value_le_bytes 4 _ (by norm_num; omega)
  have v2 : le_value (le_bytes 4 r.reference_crc32.val) = r.reference_crc32.val :=
    le_value_le_bytes 4 _ (by norm_num)
  have v3 : le_value (le_bytes 4 r.num_dims) = r.num_dims :=
    le_value_le_bytes 4 _ (by norm_num; omega)
  have v4 : le_value (le_bytes 8 r.payload.length) = r.payload.length :=
    le_value_le_bytes 8 _ (by norm_num; omega)
  have l4 : ∀ n, (le_bytes 4 n).length = 4 := le_bytes_length 4
  have l8 : ∀ n, (le_bytes 8 n).length = 8 := le_bytes_length 8
  unfold record Record.bytes Record.header
  simp only [List.append_assoc]
  have r1 := fread_append 4 (le_bytes 4 r.tag.length)
    (r.tag ++ (le_bytes 4 r.reference_crc32.val ++ (le_bytes 4 r.num_dims ++
      (r.shape_descriptor ++ (le_bytes 8 r.payload.length ++ (r.payload ++ tail)))))) e
    (by rw [l4]; omega) (by rw [l4])
  rw [l4] at r1
  rw [r1]
  simp only [one_ne_zero, if_false]
  rw [v1]
  rw [assert_fread_append _ r.tag _ e _ ht0 (by omega)]
  have r3 := assert_fread_append 4 (le_bytes 4 r.reference_crc32.val)
    (le_bytes 4 r.num_dims ++
      (r.shape_descriptor ++ (le_bytes 8 r.payload.length ++ (r.payload ++ tail)))) e
  rw [l4] at r3
  rw [r3 _ (by omega) (by omega)]
  have r4 := assert_fread_append 4 (le_bytes 4 r.num_dims)
    (r.shape_descriptor ++ (le_bytes 8 r.payload.length ++ (r.payload ++ tail))) e
  rw [l4] at r4
  rw [r4 _ (by omega) (by omega), v3]
  have e5 : 4 * 2 * r.num_dims % 4294967296 = r.shape_descriptor.length := by omega
  rw [e5, assert_fread_append _ r.shape_descriptor _ e _ (by omega) (by omega)]
  have r6 := assert_fread_append 8 (le_bytes 8 r.payload.length) (r.payload ++ tail) e
  rw [l8] at r6
  rw [r6 _ (by omega) (by omega), v4,
    assert_fread_append _ r.payload tail e _ hp0 (le_refl _), v2, u32_ofNat_self]

theorem check_eq (z : Zlib) (sched : Schedule) (crc32 : U32) (data : List Byte) (f : FILE)
    (v : U32) (hlen : data.length < 9223372036854775808)
    (hv : (cgpt_crc32 z sched data 0 (data.length : Int) 0).value = some v) :
    ∃ t, check z sched crc32 data.length data f =
      if v = crc32 then (Iter.next f, [Verdict.ok], t)
      else (Iter.stop (Outcome.exit 2), [Verdict.err v], t) := by
  obtain ⟨t, ht⟩ := Run.value_eq_some.mp hv
  refine ⟨t, ?_⟩
  unfold check
  rw [to_int64_of_lt _ hlen, ht]

/-! ## The record loop -/

theorem records_eq (z : Zlib) (sched : Schedule) (f : FILE) :
    records z sched f =
      if f.eof then (none, [], [])
      else
        match record z sched f with
        | (Iter.brk, v, t) => (none, v, t)
        | (Iter.stop o, v, t) => (some o, v, t)
        | (Iter.next f1, v, t) =>
          ((records z sched f1).1, v ++ (records z sched f1).2.1,
            t ++ (records z sched f1).2.2) := by
  rw [records]
  split_ifs
  · rfl
  · split <;> rename_i h <;> rw [h]

theorem records_next (z : Zlib) (sched : Schedule) (rest : List Byte) (f1 : FILE)
    (v : List Verdict) (t : List Event)
    (h : record z sched ⟨rest, false⟩ = (Iter.next f1, v, t)) :
    records z sched ⟨rest, false⟩ =
      ((records z sched f1).1, v ++ (records z sched f1).2.1,
        t ++ (records z sched f1).2.2) := by
  rw [records_eq, h]
  rfl

theorem records_stop (z : Zlib) (sched : Schedule) (rest : List Byte) (o : Outcome)
    (v : List Verdict) (t : List Event)
    (h : record z sched ⟨rest, false⟩ = (Iter.stop o, v, t)) :
    records z sched ⟨rest, false⟩ = (some o, v, t) := by
  rw [records_eq, h]
  rfl

/-- A tag-length read that finds fewer than four bytes, none included, leaves
the loop by `break`. -/
theorem record_brk (z : Zlib) (sched : Schedule) (rest : List Byte) (e : Bool)
    (h : rest.length < 4) : record z sched ⟨rest, e⟩ = (Iter.brk, [], []) := by
  unfold record fread
  rw [if_neg (by omega), if_neg (by show ¬ 4 ≤ rest.length; omega),
    if_pos (by show rest.length ≤ 4; omega)]
  rfl

theorem records_brk (z : Zlib) (sched : Schedule) (rest : List Byte)
    (h : rest.length < 4) : records z sched ⟨rest, false⟩ = (none, [], []) := by
  rw [records_eq, record_brk z sched rest false h]
  rfl

/-- Over a run of readable records whose checksums verify, the loop prints one
`OK` for each and goes on with what follows them. -/
theorem records_good (z : Zlib) (sched : Schedule) (recs : List Record) (rest : List Byte)
    (h : ∀ r ∈ recs, r.readable ∧ r.verifies z sched) :
    ∃ t, records z sched ⟨file_bytes recs ++ rest, false⟩ =
      ((records z sched ⟨rest, false⟩).1,
        List.replicate recs.length Verdict.ok ++ (records z sched ⟨rest, false⟩).2.1,
        t ++ (records z sched ⟨rest, false⟩).2.2) := by
  induction recs with
  | nil => exact ⟨[], rfl⟩
  | cons r recs ih =>
    obtain ⟨hr, hv⟩ := h r (List.mem_cons_self _ _)
    obtain ⟨t2, ih⟩ := ih (fun r1 h1 => h r1 (List.mem_cons_of_mem _ h1))
    obtain ⟨t1, hc⟩ := check_eq z sched r.reference_crc32 r.payload
      ⟨file_bytes recs ++ rest, false⟩ r.reference_crc32 hr.2.2.2.2.2.2 hv
    rw [if_pos rfl] at hc
    refine ⟨t1 ++ t2, ?_⟩
    have e : file_bytes (r :: recs) ++ rest = r.bytes ++ (file_bytes recs ++ rest) := by
      unfold file_bytes
      rw [List.map_cons, List.flatten_cons, List.append_assoc]
    rw [e, records_next z sched _ _ _ _ ((record_readable z sched r _ false hr).trans hc), ih,
      List.length_cons, List.replicate_succ, List.append_assoc]
    rfl

/-! ## Truncated records -/

theorem assert_fread_take (cap : Nat) (bs rest : List Byte) (m : Nat) (e : Bool)
    (k : List Byte → FILE → Iter × List Verdict × List Event) (hcap : bs.length ≤ cap) :
    assert_fread cap bs.length ⟨(bs ++ rest).take m, e⟩ k =
      if bs.length = 0 ∨ m < bs.length then (Iter.stop Outcome.abort, [], [])
      else k bs ⟨rest.take (m - bs.length), e⟩ := by
  split_ifs with h
  · rcases h with h | h
    · rw [h]
      exact assert_fread_zero _ _ _
    · apply assert_fread_short
      · show ((bs ++ rest).take m).length < bs.length
        rw [List.length_take]
        omega
      · show ((bs ++ rest).take m).length ≤ cap
        rw [List.length_take]
        omega
  · have h1 : bs.length ≤ m := by omega
    rw [List.take_append_eq_append_take, List.take_of_length_le h1]
    exact assert_fread_append cap bs _ e k (by omega) hcap

theorem header_length (r : Record) :
    r.header.length = 4 + (r.tag.length + (4 + (4 + (r.shape_descriptor.length + 8)))) := by
  unfold Record.header
  simp only [List.length_append, le_bytes_length]

/-- A stream that ends inside a header, after the four bytes of the tag length,
makes the body of the loop abort: some asserted read of the header comes up
short (or has size 0). -/
theorem record_truncated_header (z : Zlib) (sched : Schedule) (r : Record) (e : Bool)
    (m : Nat) (hr : r.header_in_range) (h4 : 4 ≤ m) (hm : m < r.header.length) :
    record z sched ⟨r.header.take m, e⟩ = (Iter.stop Outcome.abort, [], []) := by
  obtain ⟨ht1, hd1, hs, hp1⟩ := hr
  rw [header_length] at hm
  have v1 : le_value (le_bytes 4 r.tag.length) = r.tag.length :=
    le_value_le_bytes 4 _ (by norm_num; omega)
  have v3 : le_value (le_bytes 4 r.num_dims) = r.num_dims :=
    le_value_le_bytes 4 _ (by norm_num; omega)
  have l4 : ∀ n, (le_bytes 4 n).length = 4 := le_bytes_length 4
  have l8 : ∀ n, (le_bytes 8 n).length = 8 := le_bytes_length 8
  have hh : r.header = le_bytes 4 r.tag.length ++ (r.tag ++
      (le_bytes 4 r.reference_crc32.val ++ (le_bytes 4 r.num_dims ++
        (r.shape_descriptor ++ (le_bytes 8 r.payload.length ++ []))))) := by
    unfold Record.header
    rw [List.append_nil]
  rw [hh]
  unfold record
  rw [List.take_append_eq_append_take, List.take_of_length_le (by rw [l4]; exact h4), l4]
  have r1 := fread_append 4 (le_bytes 4 r.tag.length)
    (List.take (m - 4) (r.tag ++ (le_bytes 4 r.reference_crc32.val ++ (le_bytes 4 r.num_dims ++
      (r.shape_descriptor ++ (le_bytes 8 r.payload.length ++ [])))))) e
    (by rw [l4]; omega) (by rw [l4])
  rw [l4] at r1
  rw [r1]
  simp only [one_ne_zero, if_false]
  rw [v1, assert_fread_take _ r.tag _ _ e _ (by omega)]
  by_cases c1 : r.tag.length = 0 ∨ m - 4 < r.tag.length
  · rw [if_pos c1]
  rw [if_neg c1]
  have r3 := assert_fread_take 4 (le_bytes 4 r.reference_crc32.val)
    (le_bytes 4 r.num_dims ++ (r.shape_descriptor ++ (le_bytes 8 r.payload.length ++ [])))
    (m - 4 - r.tag.length) e
  rw [l4] at r3
  rw [r3 _ (le_refl _)]
  by_cases c2 : 4 = 0 ∨ m - 4 - r.tag.length < 4
  · rw [if_pos c2]
  rw [if_neg c2]
  have r4 := assert_fread_take 4 (le_bytes 4 r.num_dims)
    (r.shape_descriptor ++ (le_bytes 8 r.payload.length ++ []))
    (m - 4 - r.tag.length - 4) e
  rw [l4] at r4
  rw [r4 _ (le_refl _)]
  by_cases c3 : 4 = 0 ∨ m - 4 - r.tag.length - 4 < 4
  · rw [if_pos c3]
  rw [if_neg c3]
  have e5 : 4 * 2 * r.num_dims % 4294967296 = r.shape_descriptor.length := by omega
  rw [v3, e5, assert_fread_take _ r.shape_descriptor _ _ e _ (by omega)]
  by_cases c4 : r.shape_descriptor.length = 0 ∨
      m - 4 - r.tag.length - 4 - 4 < r.shape_descriptor.length
  · rw [if_pos c4]
  rw [if_neg c4]
  have r6 := assert_fread_take 8 (le_bytes 8 r.payload.length) []
    (m - 4 - r.tag.length - 4 - 4 - r.shape_descriptor.length) e
  rw [l8] at r6
  rw [r6 _ (le_refl _)]
  by_cases c5 : 8 = 0 ∨ m - 4 - r.tag.length - 4 - 4 - r.shape_descriptor.length < 8
  · rw [if_pos c5]
  exfalso
  omega

/-- After a complete header that declares more payload bytes than the stream
still holds, the body of the loop aborts before the engine is called: it
prints no verdict and the engine performs no event. -/
theorem record_truncated_payload (z : Zlib) (sched : Schedule) (r : Record) (e : Bool)
    (short : List Byte) (hr : r.header_in_range) (hshort : short.length < r.payload.length) :
    record z sched ⟨r.header ++ short, e⟩ = (Iter.stop Outcome.abort, [], []) := by
  obtain ⟨ht1, hd1, hs, hp1⟩ := hr
  have v1 : le_value (le_bytes 4 r.tag.length) = r.tag.length :=
    le_value_le_bytes 4 _ (by norm_num; omega)
  have v3 : le_value (le_bytes 4 r.num_dims) = r.num_dims :=
    le_value_le_bytes 4 _ (by norm_num; omega)
  have v4 : le_value (le_bytes 8 r.payload.length) = r.payload.length :=
    le_value_le_bytes 8 _ (by norm_num; omega)
  have l4 : ∀ n, (le_bytes 4 n).length = 4 := le_bytes_length 4
  have l8 : ∀ n, (le_bytes 8 n).length = 8 := le_bytes_length 8
  unfold record Record.header
  simp only [List.append_assoc]
  have r1 := fread_append 4 (le_bytes 4 r.tag.length)
    (r.tag ++ (le_bytes 4 r.reference_crc32.val ++ (le_bytes 4 r.num_dims ++
      (r.shape_descriptor ++ (le_bytes 8 r.payload.length ++ short))))) e
    (by rw [l4]; omega) (by rw [l4])
  rw [l4] at r1
  rw [r1]
  simp only [one_ne_zero, if_false]
  rw [v1]
  by_cases ht0 : r.tag.length = 0
  · rw [ht0]
    exact assert_fread_zero _ _ _
  rw [assert_fread_append _ r.tag _ e _ (by omega) (by omega)]
  have r3 := assert_fread_append 4 (le_bytes 4 r.reference_crc32.val)
    (le_bytes 4 r.num_dims ++ (r.shape_descriptor ++ (le_bytes 8 r.payload.length ++ short))) e
  rw [l4] at r3
  rw [r3 _ (by omega) (by omega)]
  have r4 := assert_fread_append 4 (le_bytes 4 r.num_dims)
    (r.shape_descriptor ++ (le_bytes 8 r.payload.length ++ short)) e
  rw [l4] at r4
  rw [r4 _ (by omega) (by omega), v3]
  have e5 : 4 * 2 * r.num_dims % 4294967296 = r.shape_descriptor.length := by omega
  rw [e5]
  by_cases hd0 : r.shape_descriptor.length = 0
  · rw [hd0]
    exact assert_fread_zero _ _ _
  rw [assert_fread_append _ r.shape_descriptor _ e _ (by omega) (by omega)]
  have r6 := assert_fread_append 8 (le_bytes 8 r.payload.length) short e
  rw [l8] at r6
  rw [r6 _ (by omega) (by omega), v4]
  exact assert_fread_short _ _ _ _ hshort (by show short.length ≤ r.payload.length; omega)

/-! ## The loop over the files -/

theorem main_cons_none (z : Zlib) (sched : Schedule) (fopen : String → Option (List Byte))
    (fn : String) (argv : List String) (bytes : List Byte) (v : List Verdict)
    (t : List Event) (hf : fopen fn = some bytes)
    (hr : records z sched ⟨bytes, false⟩ = (none, v, t)) :
    main z sched fopen (fn :: argv) =
      ((main z sched fopen argv).1, v ++ (main z sched fopen argv).2.1,
        t ++ (main z sched fopen argv).2.2) := by
  rw [main, hf]
  simp only []
  rw [hr]

theorem main_cons_some (z : Zlib) (sched : Schedule) (fopen : String → Option (List Byte))
    (fn : String) (argv : List String) (bytes : List Byte) (o : Outcome) (v : List Verdict)
    (t : List Event) (hf : fopen fn = some bytes)
    (hr : records z sched ⟨bytes, false⟩ = (some o, v, t)) :
    main z sched fopen (fn :: argv) = (o, v, t) := by
  rw [main, hf]
  simp only []
  rw [hr]

/-- Files that hold readable records whose checksums verify are passed over with
one `OK` for each record; the run goes on with the file names that follow. -/
theorem main_good_files (z : Zlib) (sched : Schedule) (fopen : String → Option (List Byte))
    (files : String → List Record) (pre post : List String)
    (h : ∀ fn ∈ pre, fopen fn = some (file_bytes (files fn)) ∧
      ∀ r ∈ files fn, r.readable ∧ r.verifies z sched) :
    ∃ t, main z sched fopen (pre ++ post) =
      ((main z sched fopen post).1,
        List.replicate (pre.map fun fn => (files fn).length).sum Verdict.ok ++
          (main z sched fopen post).2.1,
        t ++ (main z sched fopen post).2.2) := by
  induction pre with
  | nil => exact ⟨[], by simp⟩
  | cons fn pre ih =>
    obtain ⟨hf, hrecs⟩ := h fn (List.mem_cons_self _ _)
    obtain ⟨t2, ih⟩ := ih (fun g hg => h g (List.mem_cons_of_mem _ hg))
    obtain ⟨t1, h1⟩ := records_good z sched (files fn) [] hrecs
    rw [List.append_nil, records_brk z sched [] (by decide)] at h1
    refine ⟨t1 ++ t2, ?_⟩
    rw [List.cons_append, main_cons_none z sched fopen fn _ _ _ _ hf h1, ih]
    simp only [List.append_nil, List.map_cons, List.sum_cons, List.replicate_add,
      List.append_assoc]

/-! ## Facts about the example files -/

theorem check_string_value :
    (cgpt_crc32 zlib Schedule.sequential check_string 0 (check_string.length : Int) 0).value =
      some 0xCBF43926 := by
  have h := cgpt_crc32_value_eq zlib Schedule.sequential check_string 0 check_string.length 0
    zlib_crc32_nil zlib_crc32_combine_law (by omega)
  rw [List.drop_zero, List.take_length] at h
  rw [h]
  exact congrArg some zlib_crc32_check_string

theorem good_record_readable : good_record.readable := by
  unfold Record.readable
  decide

theorem good_record_verifies : good_record.verifies zlib Schedule.sequential :=
  check_string_value

theorem example_files_good (b : List Byte) :
    ∀ fn ∈ ["a.field", "empty.field"],
      example_fopen b fn = some (file_bytes (example_files fn)) ∧
        ∀ r ∈ example_files fn, r.readable ∧ r.verifies zlib Schedule.sequential := by
  intro fn hfn
  simp only [List.mem_cons, List.mem_singleton, List.not_mem_nil, or_false] at hfn
  rcases hfn with rfl | rfl
  · refine ⟨rfl, ?_⟩
    intro r hr
    have hr2 : r = good_record := by
      simp only [example_files, if_true, List.mem_cons, List.mem_singleton,
        List.not_mem_nil, or_false, or_self] at hr
      exact hr
    rw [hr2]
    exact ⟨good_record_readable, good_record_verifies⟩
  · refine ⟨rfl, ?_⟩
    intro r hr
    exact absurd hr (List.not_mem_nil r)

/-! ## Results on the record verifier -/

/-- Claim C7, as stated, fails: a record that the documented layout admits and
whose stored checksum is the CRC-32 of its payload makes the run abort when its
tag is empty, when it has no dimensions or when its payload is empty, because a
read of size 0 returns 0 and the assertion on it fails. -/
theorem main_aborts_on_empty_field :
    (record_no_tag.admitted ∧
      record_no_tag.reference_crc32 = zlib.crc32 0 record_no_tag.payload ∧
      (main zlib Schedule.sequential (fun _ => some (file_bytes [record_no_tag]))
        ["a.field"]).1 = Outcome.abort) ∧
    (record_no_dims.admitted ∧
      record_no_dims.reference_crc32 = zlib.crc32 0 record_no_dims.payload ∧
      (main zlib Schedule.sequential (fun _ => some (file_bytes [record_no_dims]))
        ["a.field"]).1 = Outcome.abort) ∧
    (record_no_payload.admitted ∧
      record_no_payload.reference_crc32 = zlib.crc32 0 record_no_payload.payload ∧
      (main zlib Schedule.sequential (fun _ => some (file_bytes [record_no_payload]))
        ["a.field"]).1 = Outcome.abort) := by
  refine ⟨⟨?_, ?_, ?_⟩, ⟨?_, ?_, ?_⟩, ⟨?_, ?_, ?_⟩⟩
  · unfold Record.admitted; decide
  · simp only [record_no_tag, zlib, zlib_crc32_check_string]
  · rw [main_cons_some zlib Schedule.sequential _ "a.field" [] (file_bytes [record_no_tag])
      Outcome.abort [] [] rfl
      (records_stop zlib Schedule.sequential (file_bytes [record_no_tag]) _ _ _ rfl)]
  · unfold Record.admitted; decide
  · simp only [record_no_dims, zlib, zlib_crc32_check_string]
  · rw [main_cons_some zlib Schedule.sequential _ "a.field" [] (file_bytes [record_no_dims])
      Outcome.abort [] [] rfl
      (records_stop zlib Schedule.sequential (file_bytes [record_no_dims]) _ _ _ rfl)]
  · unfold Record.admitted; decide
  · show (0 : U32) = zlib.crc32 0 []
    exact (zlib_crc32_nil 0).symm
  · rw [main_cons_some zlib Schedule.sequential _ "a.field" [] (file_bytes [record_no_payload])
      Outcome.abort [] [] rfl
      (records_stop zlib Schedule.sequential (file_bytes [record_no_payload]) _ _ _ rfl)]

/-- Claim C7, amended: when every file named can be opened and consists of zero
or more complete records, each with a non-empty tag shorter than `2^32 - 1`
bytes, between 1 and `2^29 - 1` dimensions and a non-empty payload shorter than
`2^63` bytes, and each stored checksum is the CRC-32 from start state 0 of its
payload, then the run prints `OK` once for every record and returns exit status
0; an empty file and the end of a file at a record boundary end the loop as
success.  The primitives are taken to satisfy their two laws. -/
theorem main_exit_zero (z : Zlib) (sched : Schedule)
    (h_nil : ∀ s, z.crc32 s [] = s)
    (h_combine : ∀ s A B, z.crc32_combine (z.crc32 s A) (z.crc32 0 B) (B.length : Int) =
      z.crc32 s (A ++ B))
    (fopen : String → Option (List Byte)) (files : String → List Record)
    (argv : List String)
    (h : ∀ fn ∈ argv, fopen fn = some (file_bytes (files fn)) ∧
      ∀ r ∈ files fn, r.readable ∧ r.reference_crc32 = z.crc32 0 r.payload) :
    (main z sched fopen argv).1 = Outcome.exit 0 ∧
      (main z sched fopen argv).2.1 =
        List.replicate (argv.map fun fn => (files fn).length).sum Verdict.ok := by
  have h2 : ∀ fn ∈ argv, fopen fn = some (file_bytes (files fn)) ∧
      ∀ r ∈ files fn, r.readable ∧ r.verifies z sched := by
    intro fn hfn
    refine ⟨(h fn hfn).1, fun r hr => ⟨((h fn hfn).2 r hr).1, ?_⟩⟩
    have hv := cgpt_crc32_value_eq z sched r.payload 0 r.payload.length 0 h_nil h_combine
      (by omega)
    rw [List.drop_zero, List.take_length] at hv
    unfold Record.verifies
    rw [hv, ((h fn hfn).2 r hr).2]
  obtain ⟨t, ht⟩ := main_good_files z sched fopen files argv [] h2
  rw [List.append_nil] at ht
  rw [ht]
  exact ⟨rfl, List.append_nil _⟩

/-- Claim C7, instance: the reference model of zlib, a file of two good records
and an empty file. -/
theorem main_exit_zero_witness :
    (∀ fn ∈ ["a.field", "empty.field"],
      example_fopen [] fn = some (file_bytes (example_files fn)) ∧
        ∀ r ∈ example_files fn,
          r.readable ∧ r.reference_crc32 = zlib.crc32 0 r.payload) ∧
    (main zlib Schedule.sequential (example_fopen []) ["a.field", "empty.field"]).1 =
      Outcome.exit 0 ∧
    (main zlib Schedule.sequential (example_fopen []) ["a.field", "empty.field"]).2.1 =
      List.replicate
        (["a.field", "empty.field"].map fun fn => (example_files fn).length).sum
        Verdict.ok :=
  have hyp : ∀ fn ∈ ["a.field", "empty.field"],
      example_fopen [] fn = some (file_bytes (example_files fn)) ∧
        ∀ r ∈ example_files fn,
          r.readable ∧ r.reference_crc32 = zlib.crc32 0 r.payload := by
    intro fn hfn
    refine ⟨(example_files_good [] fn hfn).1, fun r hr => ⟨?_, ?_⟩⟩
    · exact ((example_files_good [] fn hfn).2 r hr).1
    · simp only [List.mem_cons, List.mem_singleton, List.not_mem_nil, or_false] at hfn
      rcases hfn with rfl | rfl
      · have hr2 : r = good_record := by
          simp only [example_files, if_true, List.mem_cons, List.mem_singleton,
            List.not_mem_nil, or_false, or_self] at hr
          exact hr
        rw [hr2]
        simp only [good_record, zlib, zlib_crc32_check_string]
      · exact absurd hr (List.not_mem_nil r)
  ⟨hyp, main_exit_zero zlib Schedule.sequential zlib_crc32_nil zlib_crc32_combine_law
    (example_fopen []) example_files ["a.field", "empty.field"] hyp⟩

/-- Claim C8, as stated, fails: a complete record with an empty tag whose stored
checksum differs from the value `cgpt_crc32` computes for its payload makes the
run abort at the read of the tag; the run does not return exit status 2. -/
theorem main_aborts_on_mismatch_with_empty_tag :
    bad_record_no_tag.admitted ∧
    (cgpt_crc32 zlib Schedule.sequential bad_record_no_tag.payload 0
      (bad_record_no_tag.payload.length : Int) 0).value = some 0xCBF43926 ∧
    (0xCBF43926 : U32) ≠ bad_record_no_tag.reference_crc32 ∧
    (main zlib Schedule.sequential (fun _ => some (file_bytes [bad_record_no_tag]))
      ["a.field"]).1 = Outcome.abort ∧
    Outcome.abort ≠ Outcome.exit 2 := by
  refine ⟨?_, check_string_value, ?_, ?_, ?_⟩
  · unfold Record.admitted; decide
  · decide
  · rw [main_cons_some zlib Schedule.sequential _ "a.field" [] (file_bytes [bad_record_no_tag])
      Outcome.abort [] [] rfl
      (records_stop zlib Schedule.sequential (file_bytes [bad_record_no_tag]) _ _ _ rfl)]
  · decide

/-- Claim C8, amended: when the files named before can be opened and consist of
readable records whose checksums verify (a readable record has a non-empty tag
shorter than `2^32 - 1` bytes, between 1 and `2^29 - 1` dimensions and a
non-empty payload shorter than `2^63` bytes), and in the next file the records
before record `k` are of that kind and record `k` is readable but its stored
checksum differs from the value `v` that `cgpt_crc32` computes for its payload,
then the run prints `OK` for every record before record `k`, prints `ERR` with
`v` for record `k` and returns exit status 2, whatever bytes follow record `k` in
that file and whatever file names follow. -/
theorem main_mismatch_exit_two (z : Zlib) (sched : Schedule)
    (fopen : String → Option (List Byte)) (files : String → List Record)
    (pre : List String) (fn : String) (post : List String) (good : List Record)
    (bad : Record) (tail : List Byte) (v : U32)
    (hpre : ∀ g ∈ pre, fopen g = some (file_bytes (files g)) ∧
      ∀ r ∈ files g, r.readable ∧ r.verifies z sched)
    (hfn : fopen fn = some (file_bytes good ++ (bad.bytes ++ tail)))
    (hgood : ∀ r ∈ good, r.readable ∧ r.verifies z sched)
    (hbad : bad.readable)
    (hv : (cgpt_crc32 z sched bad.payload 0 (bad.payload.length : Int) 0).value = some v)
    (hne : v ≠ bad.reference_crc32) :
    (main z sched fopen (pre ++ fn :: post)).1 = Outcome.exit 2 ∧
      (main z sched fopen (pre ++ fn :: post)).2.1 =
        List.replicate ((pre.map fun g => (files g).length).sum + good.length) Verdict.ok ++
          [Verdict.err v] := by
  obtain ⟨t1, h1⟩ := main_good_files z sched fopen files pre (fn :: post) hpre
  obtain ⟨t2, h2⟩ := records_good z sched good (bad.bytes ++ tail) hgood
  obtain ⟨t3, h3⟩ := check_eq z sched bad.reference_crc32 bad.payload ⟨tail, false⟩ v
    hbad.2.2.2.2.2.2 hv
  rw [if_neg hne] at h3
  rw [records_stop z sched _ _ _ _ ((record_readable z sched bad tail false hbad).trans h3)]
    at h2
  rw [h1, main_cons_some z sched fopen fn post _ _ _ _ hfn h2]
  exact ⟨rfl, by rw [List.replicate_add, List.append_assoc]⟩

/-- Claim C8, instance: after a file of two good records and an empty file, a
file with one good record, a record with a wrong stored checksum and three
further bytes; the file name that follows cannot be opened. -/
theorem main_mismatch_exit_two_witness :
    (main zlib Schedule.sequential
        (example_fopen (file_bytes [good_record] ++ (bad_record.bytes ++ [1, 2, 3])))
        (["a.field", "empty.field"] ++ "b.field" :: ["c.field"])).1 = Outcome.exit 2 ∧
      (main zlib Schedule.sequential
        (example_fopen (file_bytes [good_record] ++ (bad_record.bytes ++ [1, 2, 3])))
        (["a.field", "empty.field"] ++ "b.field" :: ["c.field"])).2.1 =
        List.replicate
          ((["a.field", "empty.field"].map fun g => (example_files g).length).sum +
            [good_record].length) Verdict.ok ++ [Verdict.err 0xCBF43926] :=
  main_mismatch_exit_two zlib Schedule.sequential
    (example_fopen (file_bytes [good_record] ++ (bad_record.bytes ++ [1, 2, 3])))
    example_files ["a.field", "empty.field"] "b.field" ["c.field"] [good_record] bad_record
    [1, 2, 3] 0xCBF43926 (example_files_good _) rfl
    (fun r hr => by
      rw [List.mem_singleton] at hr
      rw [hr]
      exact ⟨good_record_readable, good_record_verifies⟩)
    (by unfold Record.readable; decide) check_string_value (by decide)

/-- Claim C9, amended: when the files named before can be opened and consist
of readable records whose checksums verify, the records before the final one
in the file are of that kind, and the final record has a complete header in
the documented layout with a tag shorter than `2^32 - 1` bytes and fewer than
`2^29` dimensions that declares more payload bytes than the stream still
holds, the run aborts: its outcome is the failed assertion, neither exit
status 0 nor exit status 2; the only verdicts are the `OK` of the records
before; and the pass of the loop body over the truncated record ends without a
verdict and without any event of the engine, so `cgpt_crc32` is not called on
the short buffer. -/
theorem main_truncated_payload_aborts (z : Zlib) (sched : Schedule)
    (fopen : String → Option (List Byte)) (files : String → List Record)
    (pre : List String) (fn : String) (post : List String) (good : List Record)
    (r : Record) (short : List Byte)
    (hpre : ∀ g ∈ pre, fopen g = some (file_bytes (files g)) ∧
      ∀ r ∈ files g, r.readable ∧ r.verifies z sched)
    (hfn : fopen fn = some (file_bytes good ++ (r.header ++ short)))
    (hgood : ∀ r ∈ good, r.readable ∧ r.verifies z sched)
    (hr : r.header_in_range) (hshort : short.length < r.payload.length) :
    (main z sched fopen (pre ++ fn :: post)).1 = Outcome.abort ∧
      Outcome.abort ≠ Outcome.exit 0 ∧ Outcome.abort ≠ Outcome.exit 2 ∧
      (main z sched fopen (pre ++ fn :: post)).2.1 =
        List.replicate ((pre.map fun g => (files g).length).sum + good.length) Verdict.ok ∧
      record z sched ⟨r.header ++ short, false⟩ = (Iter.stop Outcome.abort, [], []) := by
  have h3 := record_truncated_payload z sched r false short hr hshort
  obtain ⟨t1, h1⟩ := main_good_files z sched fopen files pre (fn :: post) hpre
  obtain ⟨t2, h2⟩ := records_good z sched good (r.header ++ short) hgood
  rw [records_stop z sched _ _ _ _ h3] at h2
  rw [h1, main_cons_some z sched fopen fn post _ _ _ _ hfn h2]
  refine ⟨rfl, by decide, by decide, ?_, h3⟩
  show List.replicate _ Verdict.ok ++ (List.replicate _ Verdict.ok ++ []) = _
  rw [List.append_nil, List.replicate_add]

/-- Claim C9, amended, instance: after two good files, a file with one good record and a
record whose payload of nine bytes is cut after four. -/
theorem main_truncated_payload_aborts_witness :
    (main zlib Schedule.sequential
        (example_fopen (file_bytes [good_record] ++ (good_record.header ++ [0x31, 0x32, 0x33, 0x34])))
        (["a.field", "empty.field"] ++ "b.field" :: ["c.field"])).1 = Outcome.abort ∧
      Outcome.abort ≠ Outcome.exit 0 ∧ Outcome.abort ≠ Outcome.exit 2 ∧
      (main zlib Schedule.sequential
        (example_fopen (file_bytes [good_record] ++ (good_record.header ++ [0x31, 0x32, 0x33, 0x34])))
        (["a.field", "empty.field"] ++ "b.field" :: ["c.field"])).2.1 =
        List.replicate
          ((["a.field", "empty.field"].map fun g => (example_files g).length).sum +
            [good_record].length) Verdict.ok ∧
      record zlib Schedule.sequential ⟨good_record.header ++ [0x31, 0x32, 0x33, 0x34], false⟩ =
        (Iter.stop Outcome.abort, [], []) :=
  main_truncated_payload_aborts zlib Schedule.sequential
    (example_fopen (file_bytes [good_record] ++ (good_record.header ++ [0x31, 0x32, 0x33, 0x34])))
    example_files ["a.field", "empty.field"] "b.field" ["c.field"] [good_record] good_record
    [0x31, 0x32, 0x33, 0x34] (example_files_good _) rfl
    (fun r hr => by
      rw [List.mem_singleton] at hr
      rw [hr]
      exact ⟨good_record_readable, good_record_verifies⟩)
    (by unfold Record.header_in_range; decide) (by decide)

/-- Claim C10, as stated, fails: a file of two bytes ends inside the tag length
of a record; the tag-length read obtains two bytes, fewer than the four it
requires, and returns 0, the loop is left by `break` and the run returns exit
status 0. -/
theorem partial_tag_length_exits_zero :
    fread 4 4 ⟨[1, 0], false⟩ = some (0, [1, 0], ⟨[], true⟩) ∧
    main zlib Schedule.sequential (fun _ => some [1, 0]) ["a.field"] =
      (Outcome.exit 0, [], []) := by
  refine ⟨rfl, ?_⟩
  rw [main_cons_none zlib Schedule.sequential _ "a.field" [] [1, 0] [] [] rfl
    (records_brk zlib Schedule.sequential [1, 0] (by decide))]
  rfl

/-- Claim C10, amended: when the files named before can be opened and consist
of readable records whose checksums verify, and the file consists of records of
that kind followed by the first `m` bytes, fewer than all, of the header of a
record in the documented layout with a tag shorter than `2^32 - 1` bytes and
fewer than `2^29` dimensions, the run aborts if the tag-length read obtained
its four bytes (`m >= 4`): the read of the tag, of the stored checksum, of the
dimension count, of the shape descriptor or of the payload length comes up
short and its assertion fails.  If the tag-length read itself finds fewer than
four bytes (`m < 4`, zero bytes included) the file ends as success and the run
goes on with the file names that follow. -/
theorem main_truncated_header (z : Zlib) (sched : Schedule)
    (fopen : String → Option (List Byte)) (files : String → List Record)
    (pre : List String) (fn : String) (post : List String) (good : List Record)
    (r : Record) (m : Nat)
    (hpre : ∀ g ∈ pre, fopen g = some (file_bytes (files g)) ∧
      ∀ r ∈ files g, r.readable ∧ r.verifies z sched)
    (hfn : fopen fn = some (file_bytes good ++ r.header.take m))
    (hgood : ∀ r ∈ good, r.readable ∧ r.verifies z sched)
    (hr : r.header_in_range) (hm : m < r.header.length) :
    (main z sched fopen (pre ++ fn :: post)).1 =
      if m < 4 then (main z sched fopen post).1 else Outcome.abort := by
  obtain ⟨t1, h1⟩ := main_good_files z sched fopen files pre (fn :: post) hpre
  obtain ⟨t2, h2⟩ := records_good z sched good (r.header.take m) hgood
  rw [h1]
  by_cases h4 : m < 4
  · rw [if_pos h4]
    rw [records_brk z sched (r.header.take m) (by rw [List.length_take]; omega)] at h2
    rw [main_cons_none z sched fopen fn post _ _ _ hfn h2]
  · rw [if_neg h4]
    rw [records_stop z sched (r.header.take m) _ _ _
      (record_truncated_header z sched r false m hr (by omega) hm)] at h2
    rw [main_cons_some z sched fopen fn post _ _ _ _ hfn h2]

/-- Claim C10, instance: after two good files, a file with one good record and
the first seven bytes of a further header (the tag length, the tag and two of
the four bytes of the stored checksum). -/
theorem main_truncated_header_witness :
    (main zlib Schedule.sequential
        (example_fopen (file_bytes [good_record] ++ good_record.header.take 7))
        (["a.field", "empty.field"] ++ "b.field" :: ["c.field"])).1 =
      if 7 < 4 then
        (main zlib Schedule.sequential
          (example_fopen (file_bytes [good_record] ++ good_record.header.take 7))
          ["c.field"]).1
      else Outcome.abort :=
  main_truncated_header zlib Schedule.sequential
    (example_fopen (file_bytes [good_record] ++ good_record.header.take 7))
    example_files ["a.field", "empty.field"] "b.field" ["c.field"] [good_record] good_record 7
    (example_files_good _) rfl
    (fun r hr => by
      rw [List.mem_singleton] at hr
      rw [hr]
      exact ⟨good_record_readable, good_record_verifies⟩)
    (by unfold Record.header_in_range; decide) (by decide)

/-! ## The events of the branch `len <= step` -/

theorem task_event_eq (data L : Nat) (start_crc : U32) (i : Nat) (hi : 524288 * i < L) :
    Event.crc32 (if i = 0 then start_crc else 0) (data + (block_size * (i : Int)).toNat)
        (block_len (L : Int) i % 4294967296).toNat = task_event data L start_crc i := by
  have e1 : (block_size * (i : Int)).toNat = 524288 * i := by unfold block_size; omega
  have e2 : (block_len (L : Int) i % 4294967296).toNat = min 524288 (L - 524288 * i) := by
    rw [block_len_natCast]; omega
  rw [e1, e2]
  rfl

theorem block_task_some (z : Zlib) (mem : List Byte) (data L : Nat) (start_crc : U32)
    (i : Nat) (p : List U32) (t : List Event) (hL : data + L ≤ mem.length)
    (hi : 524288 * i < L) (hp : i < p.length) :
    block_task z mem data (L : Int) start_crc i (some (p, t)) =
      some (p.set i (sub_crc z start_crc ((mem.drop data).take L) i),
        t ++ [task_event data L start_crc i]) := by
  unfold block_task Run.bind
  simp only
  rw [slice_sub_block mem data L i hL hi]
  simp only [hp, if_true]
  rw [task_event_eq data L start_crc i hi]
  rfl

theorem foldl_block_task_events (z : Zlib) (mem : List Byte) (data L : Nat) (start_crc : U32)
    (hL : data + L ≤ mem.length) (n : Nat) (hn : ∀ i, i < n → 524288 * i < L)
    (l : List Nat) (hl : ∀ i ∈ l, i < n) :
    ∀ (p : List U32) (t : List Event), p.length = n →
      ∃ p1 : List U32, p1.length = n ∧
        l.foldl (fun st i => block_task z mem data (L : Int) start_crc i st) (some (p, t)) =
          some (p1, t ++ l.map (task_event data L start_crc)) := by
  induction l with
  | nil => intro p t hp; exact ⟨p, hp, by simp⟩
  | cons i l ih =>
    intro p t hp
    have hi : i < n := hl i (List.mem_cons_self _ _)
    rw [List.foldl_cons,
      block_task_some z mem data L start_crc i p t hL (hn i hi) (by omega)]
    obtain ⟨p1, hp1, h⟩ := ih (fun j hj => hl j (List.mem_cons_of_mem _ hj))
      (p.set i (sub_crc z start_crc ((mem.drop data).take L) i))
      (t ++ [task_event data L start_crc i]) (by rw [List.length_set]; exact hp)
    exact ⟨p1, hp1, by rw [h, List.map_cons, List.append_assoc, List.singleton_append]⟩

theorem mem_order_lt (sched : Schedule) (n i : Nat) (h : i ∈ sched.order n) : i < n :=
  List.mem_range.mp ((sched.valid n).mem_iff.mp h)

/-- The parallel loop on a buffer inside the memory does not fault; it stores
the result of every sub-block and performs one call of `crc32` for each
sub-block, in the order of the schedule. -/
theorem cgpt_crc32_pcrcs_eq (z : Zlib) (sched : Schedule) (mem : List Byte) (data L : Nat)
    (start_crc : U32) (hL : data + L ≤ mem.length) (n : Nat)
    (hb : blocks (L : Int) = (n : Int)) (hn : ∀ i, i < n → 524288 * i < L) :
    cgpt_crc32_pcrcs z sched mem data (L : Int) start_crc =
      some ((List.range n).map (sub_crc z start_crc ((mem.drop data).take L)),
        Event.pcrcs n :: (sched.order n).map (task_event data L start_crc)) := by
  have hv := pcrcs_value_order z sched mem data (L : Int) start_crc
  rw [pcrcs_value_range z mem data L start_crc hL n hb hn] at hv
  unfold cgpt_crc32_pcrcs thread_for at hv ⊢
  rw [hb, if_neg (by omega), Int.toNat_ofNat] at hv ⊢
  obtain ⟨p1, -, h⟩ := foldl_block_task_events z mem data L start_crc hL n hn
    (sched.order n) (fun i hi => mem_order_lt sched n i hi)
    (List.replicate n 0) [Event.pcrcs n] (List.length_replicate _ _)
  rw [h] at hv ⊢
  have e : p1 = (List.range n).map (sub_crc z start_crc ((mem.drop data).take L)) := by
    simpa [Run.value] using hv
  rw [e]
  rfl

theorem reduce_step_some (z : Zlib) (len : Int) (pcrcs : List U32) (crc : U32)
    (t : List Event) (i : Nat) (hi : i < pcrcs.length) :
    reduce_step z len pcrcs (some (crc, t)) i =
      some (z.crc32_combine crc (pcrcs.getD i 0) (block_len len i),
        t ++ [Event.crc32_combine crc (pcrcs.getD i 0) (block_len len i)]) := by
  unfold reduce_step Run.bind
  simp only
  rw [List.getD_eq_getElem?_getD, List.getElem?_eq_getElem hi]
  rfl

theorem foldl_reduce_step_events (z : Zlib) (len : Int) (pcrcs : List U32) (m : Nat)
    (hm : m < pcrcs.length) :
    (List.range' 1 m).foldl (reduce_step z len pcrcs) (Run.pure (pcrcs.getD 0 0)) =
      some (reduce_acc z len pcrcs m, (List.range' 1 m).map (combine_event z len pcrcs)) := by
  induction m with
  | zero => rfl
  | succ m ih =>
    have e : 1 + 1 * m = m + 1 := by omega
    rw [List.range'_concat, List.foldl_append, List.foldl_cons, List.foldl_nil,
      ih (by omega), e, reduce_step_some z len pcrcs _ _ (m + 1) hm, List.map_append,
      List.map_cons, List.map_nil]
    rfl

/-- The branch `len <= step` on a non-empty buffer inside the memory does not
fault, and its events are: the creation of the results vector, one call of
`crc32` for each sub-block in the order of the schedule, and one call of
`crc32_combine` for each of the sub-blocks `1 .. n-1` in increasing order. -/
theorem cgpt_crc32_blocks_eq (z : Zlib) (sched : Schedule) (mem : List Byte) (data L : Nat)
    (start_crc : U32) (hL : data + L ≤ mem.length) (n : Nat)
    (hb : blocks (L : Int) = (n : Int)) (hn : ∀ i, i < n → 524288 * i < L) (hn1 : 0 < n) :
    cgpt_crc32_blocks z sched mem data (L : Int) start_crc =
      some (reduce_acc z (L : Int)
          ((List.range n).map (sub_crc z start_crc ((mem.drop data).take L))) (n - 1),
        Event.pcrcs n :: ((sched.order n).map (task_event data L start_crc) ++
          (List.range' 1 (n - 1)).map (combine_event z (L : Int)
            ((List.range n).map (sub_crc z start_crc ((mem.drop data).take L)))))) := by
  unfold cgpt_crc32_blocks
  rw [cgpt_crc32_pcrcs_eq z sched mem data L start_crc hL n hb hn]
  unfold cgpt_crc32_reduce Run.bind
  simp only
  have hlen : ((List.range n).map (sub_crc z start_crc ((mem.drop data).take L))).length = n := by
    rw [List.length_map, List.length_range]
  have h0 : ((List.range n).map (sub_crc z start_crc ((mem.drop data).take L)))[0]? =
      some (((List.range n).map (sub_crc z start_crc ((mem.drop data).take L))).getD 0 0) := by
    rw [List.getD_eq_getElem?_getD, List.getElem?_eq_getElem (by omega)]
    rfl
  rw [h0, hb, Int.toNat_ofNat]
  simp only
  rw [foldl_reduce_step_events z (L : Int) _ (n - 1) (by omega)]
  rfl

/-! ## The lengths of the sub-blocks -/

theorem min_eq_sub_len (L n i : Nat) (hn : ∀ j, j < n → 524288 * j < L)
    (hcover : L ≤ 524288 * n) (hi : i < n) :
    min 524288 (L - 524288 * i) = sub_len L n i := by
  unfold sub_len
  by_cases h : i + 1 < n
  · have := hn (i + 1) h
    rw [if_pos h]; omega
  · have e : i = n - 1 := by omega
    rw [if_neg h, ← e]; omega

theorem block_len_eq_sub_len (L n i : Nat) (hn : ∀ j, j < n → 524288 * j < L)
    (hcover : L ≤ 524288 * n) (hi : i < n) :
    block_len (L : Int) i = ((sub_len L n i : Nat) : Int) := by
  rw [← min_eq_sub_len L n i hn hcover hi, block_len_natCast]
  have := hn i hi
  omega

theorem sub_len_bounds (L n i : Nat) (hn : ∀ j, j < n → 524288 * j < L)
    (hcover : L ≤ 524288 * n) (hi : i < n) :
    1 ≤ sub_len L n i ∧ sub_len L n i ≤ 524288 ∧ 524288 * i + sub_len L n i ≤ L := by
  rw [← min_eq_sub_len L n i hn hcover hi]
  have := hn i hi
  omega

/-! ## A call that takes the branch `len <= step` -/

theorem Run.wrap_some (e : Event) (v : U32) (t : List Event) :
    ((Run.emit e).bind fun _ =>
      Run.bind (some (v, t)) fun crc =>
        (Run.emit (Event.ret crc)).bind fun _ => Run.pure crc) =
      some (v, e :: (t ++ [Event.ret v])) := rfl

theorem cgpt_crc32_eq_leaf (z : Zlib) (sched : Schedule) (mem : List Byte) (data : Nat)
    (len : Int) (start_crc : U32) (h : len ≤ step) :
    cgpt_crc32 z sched mem data len start_crc =
      cgpt_crc32_leaf z sched mem data len start_crc := by
  rw [cgpt_crc32]
  unfold cgpt_crc32_leaf
  by_cases h0 : len = 0
  · rw [if_pos h0, if_pos h0]
  · rw [if_neg h0, if_neg h0, if_pos h]

theorem cgpt_crc32_eq_while (z : Zlib) (sched : Schedule) (mem : List Byte) (data : Nat)
    (len : Int) (start_crc : U32) (h : step < len) :
    cgpt_crc32 z sched mem data len start_crc =
      (Run.emit (Event.call data len start_crc)).bind fun _ =>
        Run.bind (cgpt_crc32_while z sched mem data start_crc 0 len) fun crc =>
          (Run.emit (Event.ret crc)).bind fun _ => Run.pure crc := by
  rw [cgpt_crc32]
  have h0 : ¬ len = 0 := by unfold step at h; omega
  rw [if_neg h0, if_neg (by omega)]

theorem cgpt_crc32_while_eq (z : Zlib) (sched : Schedule) (mem : List Byte) (data : Nat)
    (crc : U32) (blk len : Int) :
    cgpt_crc32_while z sched mem data crc blk len =
      if len > step then
        (cgpt_crc32 z sched mem (data + blk.toNat) step crc).bind fun crc1 =>
          cgpt_crc32_while z sched mem data crc1 (blk + step) (len - step)
      else cgpt_crc32 z sched mem (data + blk.toNat) len crc := by
  rw [cgpt_crc32_while]

/-- A call on a non-empty buffer of at most `step` bytes inside the memory:
its value and its events. -/
theorem cgpt_crc32_le_step_eq (z : Zlib) (sched : Schedule) (mem : List Byte) (data L : Nat)
    (start_crc : U32) (hpos : 0 < L) (hstep : L ≤ 1073741824) (hL : data + L ≤ mem.length)
    (n : Nat) (hb : blocks (L : Int) = (n : Int)) (hn : ∀ i, i < n → 524288 * i < L)
    (hn1 : 0 < n) :
    cgpt_crc32 z sched mem data (L : Int) start_crc =
      some (reduce_acc z (L : Int) (sub_crcs z start_crc ((mem.drop data).take L) n) (n - 1),
        Event.call data (L : Int) start_crc :: (Event.pcrcs n ::
          ((sched.order n).map (task_event data L start_crc) ++
            (List.range' 1 (n - 1)).map (combine_event z (L : Int)
              (sub_crcs z start_crc ((mem.drop data).take L) n))) ++
          [Event.ret (reduce_acc z (L : Int)
            (sub_crcs z start_crc ((mem.drop data).take L) n) (n - 1))])) := by
  rw [cgpt_crc32_eq_leaf z sched mem data _ start_crc (by unfold step; omega)]
  unfold cgpt_crc32_leaf
  rw [if_neg (by omega), cgpt_crc32_blocks_eq z sched mem data L start_crc hL n hb hn hn1,
    Run.wrap_some]
  rfl

theorem cgpt_crc32_zero_eq (z : Zlib) (sched : Schedule) (mem : List Byte) (data : Nat)
    (start_crc : U32) :
    cgpt_crc32 z sched mem data 0 start_crc =
      some (start_crc, [Event.call data 0 start_crc, Event.ret start_crc]) := by
  rw [cgpt_crc32_eq_leaf z sched mem data 0 start_crc (by unfold step; omega)]
  rfl

/-! ## The lengths given to the primitives -/

theorem Run.bounded_bind {α β : Type} (x : Run α) (f : α → Run β) (hx : x.bounded)
    (hf : ∀ a, (f a).bounded) : (x.bind f).bounded := by
  obtain ⟨a, t, rfl, ht⟩ := hx
  obtain ⟨b, u, hb, hu⟩ := hf a
  refine ⟨b, t ++ u, ?_, ?_⟩
  · unfold Run.bind
    simp only [hb]
  · intro e he
    rcases List.mem_append.mp he with h | h
    · exact ht e h
    · exact hu e h

theorem task_event_bounded (data L : Nat) (start_crc : U32) (i : Nat) (hi : 524288 * i < L) :
    Event.bounded (task_event data L start_crc i) = true := by
  unfold task_event Event.bounded
  exact decide_eq_true (by omega)

theorem combine_event_bounded (z : Zlib) (L : Nat) (pcrcs : List U32) (i : Nat)
    (hi : 524288 * i < L) :
    Event.bounded (combine_event z (L : Int) pcrcs i) = true := by
  unfold combine_event Event.bounded
  rw [block_len_natCast]
  exact decide_eq_true (by omega)

theorem cgpt_crc32_le_step_bounded (z : Zlib) (sched : Schedule) (mem : List Byte)
    (data L : Nat) (start_crc : U32) (hstep : L ≤ 1073741824) (hL : data + L ≤ mem.length) :
    (cgpt_crc32 z sched mem data (L : Int) start_crc).bounded := by
  by_cases h0 : L = 0
  · subst h0
    refine ⟨_, _, cgpt_crc32_zero_eq z sched mem data start_crc, ?_⟩
    intro e he
    simp only [List.mem_cons, List.mem_singleton, List.not_mem_nil, or_false] at he
    rcases he with rfl | rfl <;> rfl
  · obtain ⟨n, hb, hn, -, hn0, -⟩ := blocks_spec L
    refine ⟨_, _, cgpt_crc32_le_step_eq z sched mem data L start_crc (by omega) hstep hL n hb hn
      (hn0 (by omega)), ?_⟩
    intro e he
    simp only [List.mem_cons, List.mem_append, List.mem_map, List.mem_singleton,
      List.not_mem_nil, or_false] at he
    rcases he with rfl | (rfl | ⟨i, hi, rfl⟩ | ⟨i, hi, rfl⟩) | rfl
    · rfl
    · rfl
    · exact task_event_bounded data L start_crc i (hn i (mem_order_lt sched n i hi))
    · rw [List.mem_range'_1] at hi
      exact combine_event_bounded z L _ i (hn i (by omega))
    · rfl

theorem cgpt_crc32_while_bounded (z : Zlib) (sched : Schedule) (mem : List Byte) (data : Nat)
    (L : Nat) : ∀ (blk : Nat) (crc : U32), data + blk + L ≤ mem.length →
      (cgpt_crc32_while z sched mem data crc (blk : Int) (L : Int)).bounded := by
  induction L using Nat.strong_induction_on with
  | _ L ih =>
    intro blk crc hL
    rw [cgpt_crc32_while_eq]
    by_cases hgt : 1073741824 < L
    · rw [if_pos (by unfold step; omega)]
      have e1 : (step : Int) = ((1073741824 : Nat) : Int) := by unfold step; norm_num
      have e2 : (blk : Int) + step = ((blk + 1073741824 : Nat) : Int) := by
        unfold step; push_cast; ring
      have e3 : (L : Int) - step = ((L - 1073741824 : Nat) : Int) := by
        unfold step; omega
      rw [e2, e3, e1, Int.toNat_ofNat]
      exact Run.bounded_bind _ _
        (cgpt_crc32_le_step_bounded z sched mem (data + blk) 1073741824 crc (le_refl _)
          (by omega))
        (fun crc1 => ih (L - 1073741824) (by omega) (blk + 1073741824) crc1 (by omega))
    · rw [if_neg (by unfold step; omega), Int.toNat_ofNat]
      exact cgpt_crc32_le_step_bounded z sched mem (data + blk) L crc (by omega) (by omega)

theorem cgpt_crc32_bounded (z : Zlib) (sched : Schedule) (mem : List Byte) (data L : Nat)
    (start_crc : U32) (hL : data + L ≤ mem.length) :
    (cgpt_crc32 z sched mem data (L : Int) start_crc).bounded := by
  by_cases hstep : L ≤ 1073741824
  · exact cgpt_crc32_le_step_bounded z sched mem data L start_crc hstep hL
  · rw [cgpt_crc32_eq_while z sched mem data _ start_crc (by unfold step; omega)]
    have h := cgpt_crc32_while_bounded z sched mem data L 0 start_crc (by omega)
    rw [Nat.cast_zero] at h
    refine Run.bounded_bind _ _ ⟨(), _, rfl, ?_⟩ fun _ =>
      Run.bounded_bind _ _ h fun crc => ⟨crc, _, rfl, ?_⟩
    · intro e he
      simp only [List.mem_singleton] at he
      subst he
      rfl
    · intro e he
      simp only [List.append_nil, List.mem_singleton] at he
      subst he
      rfl

/-! ## The calls of the oversize branch -/

theorem Run.bind_pure {α : Type} (x : Run α) : (x.bind fun a => Run.pure a) = x := by
  rcases x with _ | ⟨a, t⟩
  · rfl
  · unfold Run.bind Run.pure
    simp

theorem chained_calls_nil (z : Zlib) (sched : Schedule) (mem : List Byte) (data : Nat)
    (crc : U32) : chained_calls z sched mem data [] crc = Run.pure crc := rfl

theorem chained_calls_cons (z : Zlib) (sched : Schedule) (mem : List Byte) (data : Nat)
    (blk len : Int) (rest : List (Int × Int)) (crc : U32) :
    chained_calls z sched mem data ((blk, len) :: rest) crc =
      (cgpt_crc32 z sched mem (data + blk.toNat) len crc).bind fun crc1 =>
        chained_calls z sched mem data rest crc1 := rfl

theorem cgpt_crc32_while_chained (z : Zlib) (sched : Schedule) (mem : List Byte) (data : Nat)
    (q : Nat) : ∀ (crc : U32) (blk len : Int),
      ((q : Int) * step < len ∨ q = 0) → len ≤ ((q : Int) + 1) * step →
      cgpt_crc32_while z sched mem data crc blk len =
        chained_calls z sched mem data
          ((List.range q).map (fun (k : Nat) => (blk + (k : Int) * step, step)) ++
            [(blk + (q : Int) * step, len - (q : Int) * step)]) crc := by
  induction q with
  | zero =>
    intro crc blk len _ hle
    rw [cgpt_crc32_while_eq, if_neg (by unfold step at hle ⊢; omega)]
    simp only [List.range_zero, List.map_nil, List.nil_append, Nat.cast_zero, zero_mul,
      add_zero, sub_zero]
    rw [chained_calls_cons]
    simp only [chained_calls_nil]
    rw [Run.bind_pure]
  | succ q ih =>
    intro crc blk len hlt hle
    have hlt1 : ((q : Int) + 1) * step < len := by
      rcases hlt with h | h
      · rw [Nat.cast_succ] at h; exact h
      · omega
    rw [cgpt_crc32_while_eq, if_pos (by unfold step at hlt1 ⊢; omega)]
    rw [List.range_succ_eq_map, List.map_cons, List.map_map, List.cons_append,
      chained_calls_cons]
    simp only [Nat.cast_zero, zero_mul, add_zero]
    congr 1
    funext crc1
    rw [ih crc1 (blk + step) (len - step)
      (Or.inl (by unfold step at hlt1 ⊢; omega))
      (by rw [Nat.cast_succ] at hle; unfold step at hle ⊢; omega)]
    congr 2
    · apply List.map_congr_left
      intro k _
      simp only [Function.comp, Nat.cast_succ]
      congr 1
      ring
    · rw [Nat.cast_succ]
      congr 2 <;> ring

theorem cgpt_crc32_while_eq_n (z : Zlib) (sched : Schedule) (mem : List Byte) (data : Nat)
    (q : Nat) : ∀ (crc : U32) (blk len : Int),
      ((q : Int) * step < len ∨ q = 0) → len ≤ ((q : Int) + 1) * step →
      cgpt_crc32_while z sched mem data crc blk len =
        cgpt_crc32_while_n z sched mem data q crc blk len := by
  induction q with
  | zero =>
    intro crc blk len _ hle
    have hle1 : len ≤ step := by unfold step at hle ⊢; omega
    rw [cgpt_crc32_while_eq, if_neg (by omega),
      cgpt_crc32_eq_leaf z sched mem _ len crc hle1]
    rfl
  | succ q ih =>
    intro crc blk len hlt hle
    have hlt1 : ((q : Int) + 1) * step < len := by
      rcases hlt with h | h
      · rw [Nat.cast_succ] at h; exact h
      · omega
    rw [cgpt_crc32_while_eq, if_pos (by unfold step at hlt1 ⊢; omega),
      cgpt_crc32_eq_leaf z sched mem _ step crc (le_refl _)]
    unfold cgpt_crc32_while_n
    congr 1
    funext crc1
    exact ih crc1 (blk + step) (len - step) (Or.inl (by unfold step at hlt1 ⊢; omega))
      (by rw [Nat.cast_succ] at hle; unfold step at hle ⊢; omega)

/-- The number of iterations of the loop of the oversize branch: for
`step < len` the `q` with `q * step < len <= (q + 1) * step`. -/
theorem while_count_spec (len : Int) :
    ∃ q : Nat, ((q : Int) * step < len ∨ q = 0) ∧ len ≤ ((q : Int) + 1) * step ∧
      (step < len → 1 ≤ q ∧ (q : Int) * step < len) := by
  refine ⟨((len - 1) / 1073741824).toNat, ?_, ?_, ?_⟩ <;> unfold step <;> omega

theorem Run.bind_some_some {α β : Type} (a : α) (t : List Event) (f : α → Run β) (b : β)
    (u : List Event) (h : f a = some (b, u)) :
    Run.bind (some (a, t)) f = some (b, t ++ u) := by
  unfold Run.bind
  simp only [h]

/-- A call on a buffer of at most `step` bytes inside the memory returns; its
first event is the call itself. -/
theorem cgpt_crc32_le_step_some (z : Zlib) (sched : Schedule) (mem : List Byte) (data L : Nat)
    (start_crc : U32) (hstep : L ≤ 1073741824) (hL : data + L ≤ mem.length) :
    ∃ (v : U32) (t : List Event), cgpt_crc32 z sched mem data (L : Int) start_crc =
      some (v, Event.call data (L : Int) start_crc :: t) := by
  by_cases h0 : L = 0
  · subst h0
    exact ⟨_, _, cgpt_crc32_zero_eq z sched mem data start_crc⟩
  · obtain ⟨n, hb, hn, -, hn0, -⟩ := blocks_spec L
    exact ⟨_, _, cgpt_crc32_le_step_eq z sched mem data L start_crc (by omega) hstep hL n hb hn
      (hn0 (by omega))⟩

/-- A buffer of exactly two times `step` bytes: one chunk call, and a final
call on `step` bytes. -/
theorem cgpt_crc32_two_steps (z : Zlib) (sched : Schedule) (mem : List Byte) (data d1 : Nat)
    (start_crc : U32) (hd : d1 = data + 1073741824) (h : data + 2147483648 ≤ mem.length) :
    ∃ (c v : U32) (t1 t2 : List Event),
      cgpt_crc32 z sched mem data step start_crc = some (c, t1) ∧
      cgpt_crc32 z sched mem d1 step c = some (v, Event.call d1 step c :: t2) ∧
      cgpt_crc32 z sched mem data (2 * step) start_crc =
        some (v, Event.call data (2 * step) start_crc ::
          ((t1 ++ Event.call d1 step c :: t2) ++ [Event.ret v])) := by
  have e1 : (step : Int) = ((1073741824 : Nat) : Int) := by unfold step; norm_num
  obtain ⟨c, t1, h1⟩ := cgpt_crc32_le_step_some z sched mem data 1073741824 start_crc
    (le_refl _) (by omega)
  obtain ⟨v, t2, h2⟩ := cgpt_crc32_le_step_some z sched mem d1 1073741824 c
    (le_refl _) (by omega)
  rw [← e1] at h1 h2
  refine ⟨c, v, _, t2, h1, h2, ?_⟩
  have e2 : data + (0 : Int).toNat = data := by simp
  have e3 : data + ((0 : Int) + step).toNat = d1 := by rw [hd]; unfold step; omega
  have e4 : 2 * step - step = step := by ring
  rw [cgpt_crc32_eq_while z sched mem data _ start_crc (by unfold step; omega),
    cgpt_crc32_while_eq, if_pos (by unfold step; omega), e2, h1,
    Run.bind_some_some c _ _ v (Event.call d1 step c :: t2)
      (by rw [cgpt_crc32_while_eq, if_neg (by unfold step; omega), e3, e4, h2]),
    Run.wrap_some]

/-! ## Results on the sub-blocks and on the oversize branch -/

/-- Claim C11: for a buffer of `L` bytes inside the memory with
`0 < L <= step`, and `n = blocks L` the least number with `L <= 524288 * n`,
the call performs one `crc32` for each sub-block `i < n` and one
`crc32_combine` for each sub-block `1 <= i < n`, and the length it gives to
`crc32_combine` for sub-block `i` is the length given to `crc32` for that
sub-block, which is the length of the range hashed into slot `i`: 524288 for
`i < n - 1` and `L - 524288 * (n - 1)` for `i = n - 1`, the latter between 1
and 524288. -/
theorem cgpt_crc32_combine_lengths (z : Zlib) (sched : Schedule) (mem : List Byte)
    (data L : Nat) (start_crc : U32) (hpos : 0 < L) (hstep : (L : Int) ≤ step)
    (hL : data + L ≤ mem.length) :
    ∃ n : Nat, blocks (L : Int) = (n : Int) ∧ 524288 * (n - 1) < L ∧ L ≤ 524288 * n ∧
      (cgpt_crc32 z sched mem data (L : Int) start_crc).events =
        Event.call data (L : Int) start_crc :: (Event.pcrcs n ::
          ((sched.order n).map (fun i =>
              Event.crc32 (if i = 0 then start_crc else 0) (data + 524288 * i)
                (sub_len L n i)) ++
            (List.range' 1 (n - 1)).map (fun i =>
              Event.crc32_combine
                (reduce_acc z (L : Int) (sub_crcs z start_crc ((mem.drop data).take L) n)
                  (i - 1))
                ((sub_crcs z start_crc ((mem.drop data).take L) n).getD i 0)
                ((sub_len L n i : Nat) : Int))) ++
          [Event.ret (reduce_acc z (L : Int)
            (sub_crcs z start_crc ((mem.drop data).take L) n) (n - 1))]) ∧
      (∀ i, i < n →
        (sub_block ((mem.drop data).take L) i).length = sub_len L n i ∧
        block_len (L : Int) i = ((sub_len L n i : Nat) : Int)) ∧
      (∀ i, i + 1 < n → sub_len L n i = 524288) ∧
      sub_len L n (n - 1) = L - 524288 * (n - 1) ∧
      1 ≤ sub_len L n (n - 1) ∧ sub_len L n (n - 1) ≤ 524288 := by
  have hlen : ((mem.drop data).take L).length = L := by
    rw [List.length_take, List.length_drop]; omega
  obtain ⟨n, hb, hn, hcover, hn0, -⟩ := blocks_spec L
  have hn1 := hn0 hpos
  have hlast := hn (n - 1) (by omega)
  have hb3 := sub_len_bounds L n (n - 1) hn hcover (by omega)
  refine ⟨n, hb, hlast, hcover, ?_, ?_, ?_, ?_, hb3.1, hb3.2.1⟩
  · rw [cgpt_crc32_le_step_eq z sched mem data L start_crc hpos (by unfold step at hstep; omega)
      hL n hb hn hn1]
    unfold Run.events
    simp only
    congr 3
    congr 1
    · apply List.map_congr_left
      intro i hi
      unfold task_event
      rw [min_eq_sub_len L n i hn hcover (mem_order_lt sched n i hi)]
    · apply List.map_congr_left
      intro i hi
      rw [List.mem_range'_1] at hi
      unfold combine_event
      rw [block_len_eq_sub_len L n i hn hcover (by omega)]
  · intro i hi
    refine ⟨?_, block_len_eq_sub_len L n i hn hcover hi⟩
    rw [← min_eq_sub_len L n i hn hcover hi]
    unfold sub_block
    rw [List.length_take, List.length_drop, hlen]
  · intro i hi
    unfold sub_len
    rw [if_pos hi]
  · unfold sub_len
    rw [if_neg (by omega)]

/-- Claim C11, instance: the reference model of zlib on a buffer of 1200000
bytes, which has three sub-blocks. -/
theorem cgpt_crc32_combine_lengths_witness :
    0 < 1200000 ∧ ((1200000 : Nat) : Int) ≤ step ∧ 0 + 1200000 ≤ three_block_buffer.length ∧
    ∃ n : Nat, blocks ((1200000 : Nat) : Int) = (n : Int) ∧ 524288 * (n - 1) < 1200000 ∧
      1200000 ≤ 524288 * n ∧
      (cgpt_crc32 zlib Schedule.sequential three_block_buffer 0 ((1200000 : Nat) : Int) 0).events =
        Event.call 0 ((1200000 : Nat) : Int) 0 :: (Event.pcrcs n ::
          ((Schedule.sequential.order n).map (fun i =>
              Event.crc32 (if i = 0 then 0 else 0) (0 + 524288 * i)
                (sub_len 1200000 n i)) ++
            (List.range' 1 (n - 1)).map (fun i =>
              Event.crc32_combine
                (reduce_acc zlib ((1200000 : Nat) : Int)
                  (sub_crcs zlib 0 ((three_block_buffer.drop 0).take 1200000) n) (i - 1))
                ((sub_crcs zlib 0 ((three_block_buffer.drop 0).take 1200000) n).getD i 0)
                ((sub_len 1200000 n i : Nat) : Int))) ++
          [Event.ret (reduce_acc zlib ((1200000 : Nat) : Int)
            (sub_crcs zlib 0 ((three_block_buffer.drop 0).take 1200000) n) (n - 1))]) ∧
      (∀ i, i < n →
        (sub_block ((three_block_buffer.drop 0).take 1200000) i).length =
          sub_len 1200000 n i ∧
        block_len ((1200000 : Nat) : Int) i = ((sub_len 1200000 n i : Nat) : Int)) ∧
      (∀ i, i + 1 < n → sub_len 1200000 n i = 524288) ∧
      sub_len 1200000 n (n - 1) = 1200000 - 524288 * (n - 1) ∧
      1 ≤ sub_len 1200000 n (n - 1) ∧ sub_len 1200000 n (n - 1) ≤ 524288 :=
  have h1 : 0 < 1200000 := by decide
  have h2 : ((1200000 : Nat) : Int) ≤ step := by unfold step; decide
  have h3 : 0 + 1200000 ≤ three_block_buffer.length := by
    unfold three_block_buffer
    rw [List.length_replicate]
  ⟨h1, h2, h3,
    cgpt_crc32_combine_lengths zlib Schedule.sequential three_block_buffer 0 1200000 0 h1 h2 h3⟩

/-- Claim C13: for a buffer of `L` bytes inside the memory with
`0 < L <= step`, the number `n` of sub-blocks is at least 1, the results
vector has `n` slots so that the read of slot 0 is in bounds, the call does not
fault, and every sub-block `i < n` is a non-empty range of `block_len L i`
bytes from offset `524288 * i` that ends inside the buffer; among the lengths
`len >= 0` only `len = 0` has zero sub-blocks, and the call with `len = 0`
returns at once, without the creation of the results vector. -/
theorem sub_blocks_in_bounds (z : Zlib) (sched : Schedule) (mem : List Byte)
    (data L : Nat) (start_crc : U32) (hpos : 0 < L) (hstep : (L : Int) ≤ step)
    (hL : data + L ≤ mem.length) :
    ∃ n : Nat, blocks (L : Int) = (n : Int) ∧ 1 ≤ n ∧
      (∃ (p : List U32) (t : List Event),
        cgpt_crc32_pcrcs z sched mem data (L : Int) start_crc = some (p, t) ∧
        p.length = n ∧ ∃ p0, p[0]? = some p0) ∧
      (∃ (v : U32) (t : List Event),
        cgpt_crc32 z sched mem data (L : Int) start_crc = some (v, t)) ∧
      (∀ i, i < n →
        0 < block_len (L : Int) i ∧
        block_size * (i : Int) + block_len (L : Int) i ≤ (L : Int) ∧
        slice mem (data + (block_size * (i : Int)).toNat)
            (block_len (L : Int) i % 4294967296).toNat =
          some (sub_block ((mem.drop data).take L) i) ∧
        ((sub_block ((mem.drop data).take L) i).length : Int) = block_len (L : Int) i) ∧
      (∀ len : Int, 0 ≤ len → blocks len = 0 → len = 0) ∧
      cgpt_crc32 z sched mem data 0 start_crc =
        some (start_crc, [Event.call data 0 start_crc, Event.ret start_crc]) := by
  have hlen : ((mem.drop data).take L).length = L := by
    rw [List.length_take, List.length_drop]; omega
  obtain ⟨n, hb, hn, hcover, hn0, -⟩ := blocks_spec L
  have hn1 := hn0 hpos
  refine ⟨n, hb, hn1, ⟨_, _, cgpt_crc32_pcrcs_eq z sched mem data L start_crc hL n hb hn, ?_,
    ?_⟩, ⟨_, _, cgpt_crc32_le_step_eq z sched mem data L start_crc hpos
      (by unfold step at hstep; omega) hL n hb hn hn1⟩, ?_, ?_,
    cgpt_crc32_zero_eq z sched mem data start_crc⟩
  · rw [List.length_map, List.length_range]
  · exact ⟨_, List.getElem?_eq_getElem (by rw [List.length_map, List.length_range]; exact hn1)⟩
  · intro i hi
    have h1 := hn i hi
    have h2 := block_len_natCast L i
    refine ⟨by omega, by unfold block_size; omega, slice_sub_block mem data L i hL h1, ?_⟩
    rw [sub_block_length, hlen]
    omega
  · intro len h0 hz
    obtain ⟨m, rfl⟩ := Int.eq_ofNat_of_zero_le h0
    rw [blocks_natCast] at hz
    omega

/-- Claim C13, instance: the reference model of zlib on a buffer of 1200000
bytes. -/
theorem sub_blocks_in_bounds_witness :
    0 < 1200000 ∧ ((1200000 : Nat) : Int) ≤ step ∧ 0 + 1200000 ≤ three_block_buffer.length ∧
    ∃ n : Nat, blocks ((1200000 : Nat) : Int) = (n : Int) ∧ 1 ≤ n ∧
      (∃ (p : List U32) (t : List Event),
        cgpt_crc32_pcrcs zlib Schedule.sequential three_block_buffer 0
          ((1200000 : Nat) : Int) 0 = some (p, t) ∧
        p.length = n ∧ ∃ p0, p[0]? = some p0) ∧
      (∃ (v : U32) (t : List Event),
        cgpt_crc32 zlib Schedule.sequential three_block_buffer 0 ((1200000 : Nat) : Int) 0 =
          some (v, t)) ∧
      (∀ i, i < n →
        0 < block_len ((1200000 : Nat) : Int) i ∧
        block_size * (i : Int) + block_len ((1200000 : Nat) : Int) i ≤
          ((1200000 : Nat) : Int) ∧
        slice three_block_buffer (0 + (block_size * (i : Int)).toNat)
            (block_len ((1200000 : Nat) : Int) i % 4294967296).toNat =
          some (sub_block ((three_block_buffer.drop 0).take 1200000) i) ∧
        ((sub_block ((three_block_buffer.drop 0).take 1200000) i).length : Int) =
          block_len ((1200000 : Nat) : Int) i) ∧
      (∀ len : Int, 0 ≤ len → blocks len = 0 → len = 0) ∧
      cgpt_crc32 zlib Schedule.sequential three_block_buffer 0 0 0 =
        some (0, [Event.call 0 0 0, Event.ret 0]) :=
  have h1 : 0 < 1200000 := by decide
  have h2 : ((1200000 : Nat) : Int) ≤ step := by unfold step; decide
  have h3 : 0 + 1200000 ≤ three_block_buffer.length := by
    unfold three_block_buffer
    rw [List.length_replicate]
  ⟨h1, h2, h3,
    sub_blocks_in_bounds zlib Schedule.sequential three_block_buffer 0 1200000 0 h1 h2 h3⟩

/-- Claim C15: for a buffer of `L >= 0` bytes inside the memory and every
start state, the call does not fault and every `crc32` call and every
`crc32_combine` call among its events has a byte length between 1 and 524288,
which is at most `step` and below `2^32`; the 64-bit length of a sub-block
that starts inside its buffer is in that range before it is converted; and
for `L <= step` the number of sub-blocks is at most 2048, below `2^31`. -/
theorem primitive_lengths_bounded (z : Zlib) (sched : Schedule) (mem : List Byte)
    (data L : Nat) (start_crc : U32) (hL : data + L ≤ mem.length) :
    (∃ (v : U32) (t : List Event),
      cgpt_crc32 z sched mem data (L : Int) start_crc = some (v, t) ∧
      (∀ c buf n, Event.crc32 c buf n ∈ t →
        1 ≤ n ∧ n ≤ 524288 ∧ (n : Int) ≤ step ∧ n < 4294967296) ∧
      (∀ c1 c2 len2, Event.crc32_combine c1 c2 len2 ∈ t →
        1 ≤ len2 ∧ len2 ≤ 524288 ∧ len2 ≤ step ∧ len2 < 4294967296)) ∧
    (∀ len i : Nat, 524288 * i < len →
      1 ≤ block_len (len : Int) i ∧ block_len (len : Int) i ≤ 524288) ∧
    ((L : Int) ≤ step →
      0 ≤ blocks (L : Int) ∧ blocks (L : Int) ≤ 2048 ∧ blocks (L : Int) < 2147483648) := by
  obtain ⟨v, t, h, ht⟩ := cgpt_crc32_bounded z sched mem data L start_crc hL
  refine ⟨⟨v, t, h, ?_, ?_⟩, ?_, ?_⟩
  · intro c buf n hmem
    have hb := ht _ hmem
    unfold Event.bounded at hb
    have hb2 := of_decide_eq_true hb
    unfold step
    omega
  · intro c1 c2 len2 hmem
    have hb := ht _ hmem
    unfold Event.bounded at hb
    have hb2 := of_decide_eq_true hb
    unfold step
    omega
  · intro len i hi
    rw [block_len_natCast]
    omega
  · intro hstep
    rw [blocks_natCast]
    unfold step at hstep
    omega

/-- Claim C15, instance: the reference model of zlib on a buffer one byte
longer than `step`. -/
theorem primitive_lengths_bounded_witness :
    0 + 1073741825 ≤ long_buffer.length ∧
    (∃ (v : U32) (t : List Event),
      cgpt_crc32 zlib Schedule.sequential long_buffer 0 ((1073741825 : Nat) : Int) 0 =
        some (v, t) ∧
      (∀ c buf n, Event.crc32 c buf n ∈ t →
        1 ≤ n ∧ n ≤ 524288 ∧ (n : Int) ≤ step ∧ n < 4294967296) ∧
      (∀ c1 c2 len2, Event.crc32_combine c1 c2 len2 ∈ t →
        1 ≤ len2 ∧ len2 ≤ 524288 ∧ len2 ≤ step ∧ len2 < 4294967296)) ∧
    (∀ len i : Nat, 524288 * i < len →
      1 ≤ block_len (len : Int) i ∧ block_len (len : Int) i ≤ 524288) ∧
    (((1073741825 : Nat) : Int) ≤ step →
      0 ≤ blocks ((1073741825 : Nat) : Int) ∧ blocks ((1073741825 : Nat) : Int) ≤ 2048 ∧
        blocks ((1073741825 : Nat) : Int) < 2147483648) :=
  have h3 : 0 + 1073741825 ≤ long_buffer.length := by
    unfold long_buffer
    rw [List.length_replicate]
  ⟨h3, primitive_lengths_bounded zlib Schedule.sequential long_buffer 0 1073741825 0 h3⟩

/-- Claim C12, as the code has it: on a buffer of `2 * step` bytes the oversize
branch makes one call on a chunk of `step` bytes and finishes with a call on
what is left, which is `step` bytes again and so not shorter than `step`. -/
theorem oversize_remainder_of_full_length :
    ∃ (c v : U32) (t1 t2 : List Event),
      cgpt_crc32 zlib Schedule.sequential double_buffer 0 step 0 = some (c, t1) ∧
      cgpt_crc32 zlib Schedule.sequential double_buffer 1073741824 step c =
        some (v, Event.call 1073741824 step c :: t2) ∧
      cgpt_crc32 zlib Schedule.sequential double_buffer 0 (2 * step) 0 =
        some (v, Event.call 0 (2 * step) 0 ::
          ((t1 ++ Event.call 1073741824 step c :: t2) ++ [Event.ret v])) ∧
      ¬ (step < step) := by
  obtain ⟨c, v, t1, t2, h1, h2, h3⟩ :=
    cgpt_crc32_two_steps zlib Schedule.sequential double_buffer 0 1073741824 0 (by omega)
      (by unfold double_buffer; rw [List.length_replicate])
  exact ⟨c, v, t1, t2, h1, h2, h3, lt_irrefl _⟩

/-- Claim C12, amended: for every `len > step` the oversize branch is a
sequence of calls of `cgpt_crc32` on `q >= 1` consecutive chunks of exactly
`step` bytes, at the offsets `0, step, ..., (q - 1) * step`, each seeded with
the state returned for the chunk before it and the first with `start_crc`,
followed by a call on what is left from offset `q * step` on, whose length
`len - q * step` is at least 1 and at most `step`. -/
theorem cgpt_crc32_oversize_calls (z : Zlib) (sched : Schedule) (mem : List Byte)
    (data : Nat) (len : Int) (start_crc : U32) (hlen : step < len) :
    ∃ q : Nat, 1 ≤ q ∧
      (cgpt_crc32 z sched mem data len start_crc =
        (Run.emit (Event.call data len start_crc)).bind fun _ =>
          Run.bind (chained_calls z sched mem data (chunks len q) start_crc) fun crc =>
            (Run.emit (Event.ret crc)).bind fun _ => Run.pure crc) ∧
      0 < len - (q : Int) * step ∧ len - (q : Int) * step ≤ step := by
  obtain ⟨q, hq, hle, hgt⟩ := while_count_spec len
  obtain ⟨hq1, hlt⟩ := hgt hlen
  refine ⟨q, hq1, ?_, by omega, by unfold step at hle ⊢; omega⟩
  rw [cgpt_crc32_eq_while z sched mem data len start_crc hlen,
    cgpt_crc32_while_chained z sched mem data q start_crc 0 len hq hle]
  unfold chunks
  simp only [zero_add]

/-- Claim C12, amended, instance: the reference model of zlib on a buffer one
byte longer than `step`. -/
theorem cgpt_crc32_oversize_calls_witness :
    step < 1073741825 ∧
    ∃ q : Nat, 1 ≤ q ∧
      (cgpt_crc32 zlib Schedule.sequential long_buffer 0 1073741825 0 =
        (Run.emit (Event.call 0 1073741825 0)).bind fun _ =>
          Run.bind (chained_calls zlib Schedule.sequential long_buffer 0
              (chunks 1073741825 q) 0) fun crc =>
            (Run.emit (Event.ret crc)).bind fun _ => Run.pure crc) ∧
      0 < 1073741825 - (q : Int) * step ∧ 1073741825 - (q : Int) * step ≤ step :=
  have h : step < 1073741825 := by unfold step; decide
  ⟨h, cgpt_crc32_oversize_calls zlib Schedule.sequential long_buffer 0 1073741825 0 h⟩

/-- Claim C16: for every signed `len` the call is a finite composition of
calls that do not recurse.  With `q` the number of times the guard
`len > step` of the loop holds while `len` goes down by `step` per iteration
(for `len > step` this is the `q` with `q * step < len <= (q + 1) * step`, for
`len <= step` it is 0), the call is the non-recursive body itself when
`len <= step`, and otherwise it is `q` iterations of the loop body followed
by the final call, where every one of these `q + 1` calls has a length in
`1 .. step` and is made by the non-recursive body. -/
theorem cgpt_crc32_depth_one (z : Zlib) (sched : Schedule) (mem : List Byte)
    (data : Nat) (len : Int) (start_crc : U32) :
    ∃ q : Nat,
      (∀ k : Nat, k < q → step < len - (k : Int) * step) ∧
      ¬ (step < len - (q : Int) * step) ∧
      (if step < len then
        (q : Int) * step < len ∧ len ≤ ((q : Int) + 1) * step ∧
          0 < len - (q : Int) * step ∧ len - (q : Int) * step ≤ step
       else q = 0) ∧
      cgpt_crc32 z sched mem data len start_crc =
        if len ≤ step then cgpt_crc32_leaf z sched mem data len start_crc
        else
          (Run.emit (Event.call data len start_crc)).bind fun _ =>
            Run.bind (cgpt_crc32_while_n z sched mem data q start_crc 0 len) fun crc =>
              (Run.emit (Event.ret crc)).bind fun _ => Run.pure crc := by
  by_cases hlen : step < len
  · obtain ⟨q, hq, hle, hgt⟩ := while_count_spec len
    obtain ⟨hq1, hlt⟩ := hgt hlen
    refine ⟨q, ?_, ?_, ?_, ?_⟩
    · intro k hk
      unfold step at hlt ⊢
      omega
    · unfold step at hle ⊢
      omega
    · rw [if_pos hlen]
      refine ⟨hlt, hle, by omega, ?_⟩
      unfold step at hle ⊢
      omega
    · rw [if_neg (by omega), cgpt_crc32_eq_while z sched mem data len start_crc hlen,
        cgpt_crc32_while_eq_n z sched mem data q start_crc 0 len hq hle]
  · refine ⟨0, ?_, ?_, ?_, ?_⟩
    · intro k hk
      omega
    · rw [Nat.cast_zero, zero_mul, sub_zero]
      exact hlen
    · rw [if_neg hlen]
    · rw [if_pos (by omega), cgpt_crc32_eq_leaf z sched mem data len start_crc (by omega)]

/-! ## The read of the shape descriptor -/

/-- After the tag and the two 32-bit fields, the asserted read of the shape
descriptor takes `(4 * 2 * nd) mod 2^32` bytes, when that is not zero, and the
read of the payload length starts right after them. -/
theorem record_after_shape (z : Zlib) (sched : Schedule) (tag : List Byte) (crc : U32)
    (nd : Nat) (shape rest : List Byte) (e : Bool)
    (ht0 : 0 < tag.length) (ht1 : tag.length < 4294967295) (hd : nd < 4294967296)
    (hs : shape.length = (4 * 2 * nd) % 4294967296) (hs0 : 0 < shape.length) :
    record z sched
        ⟨le_bytes 4 tag.length ++ (tag ++ (le_bytes 4 crc.val ++ (le_bytes 4 nd ++
          (shape ++ rest)))), e⟩ =
      assert_fread 8 8 ⟨rest, e⟩ fun b_size f6 =>
        assert_fread (le_value b_size) (le_value b_size) f6 fun data f7 =>
          check z sched crc (le_value b_size) data f7 := by
  have v1 : le_value (le_bytes 4 tag.length) = tag.length :=
    le_value_le_bytes 4 _ (by norm_num; omega)
  have v2 : le_value (le_bytes 4 crc.val) = crc.val :=
    le_value_le_bytes 4 _ (by norm_num)
  have v3 : le_value (le_bytes 4 nd) = nd :=
    le_value_le_bytes 4 _ (by norm_num; omega)
  have l4 : ∀ n, (le_bytes 4 n).length = 4 := le_bytes_length 4
  unfold record
  have r1 := fread_append 4 (le_bytes 4 tag.length)
    (tag ++ (le_bytes 4 crc.val ++ (le_bytes 4 nd ++ (shape ++ rest)))) e
    (by rw [l4]; omega) (by rw [l4])
  rw [l4] at r1
  rw [r1]
  simp only [one_ne_zero, if_false]
  rw [v1]
  rw [assert_fread_append _ tag _ e _ ht0 (by omega)]
  have r3 := assert_fread_append 4 (le_bytes 4 crc.val) (le_bytes 4 nd ++ (shape ++ rest)) e
  rw [l4] at r3
  rw [r3 _ (by omega) (by omega)]
  have r4 := assert_fread_append 4 (le_bytes 4 nd) (shape ++ rest) e
  rw [l4] at r4
  rw [r4 _ (by omega) (by omega), v3, ← hs,
    assert_fread_append _ shape rest e _ hs0 (by omega), v2, u32_ofNat_self]

theorem wide_record_bytes :
    wide_record.bytes =
      le_bytes 4 ([0x41] : List Byte).length ++ (([0x41] : List Byte) ++
        (le_bytes 4 (0xCBF43926 : U32).val ++ (le_bytes 4 536870913 ++
          (List.replicate 8 0 ++
            (List.replicate 4294967296 0 ++ (le_bytes 8 9 ++ check_string)))))) := by
  have e : List.replicate 4294967304 (0 : Byte) =
      List.replicate 8 0 ++ List.replicate 4294967296 0 := by
    rw [← List.replicate_add]
  unfold Record.bytes Record.header wide_record
  simp only
  rw [e]
  simp only [List.append_assoc]
  rfl

/-! ## Results on the read of the shape descriptor -/

/-- Claim C14, as the code has it: the size of the read of the shape
descriptor is `4*2*nd` in 32-bit arithmetic.  A record with no dimensions makes
the run abort at that read, of size 0, before the payload length is read.  A
record with `2^29 + 1` dimensions, whose shape descriptor has `2^32 + 8` bytes,
has 8 of them consumed: the read of the payload length starts with `2^32` bytes
of the shape descriptor still ahead, finds the value 0 there, and the run
aborts at the read of the payload. -/
theorem shape_read_wraps :
    (record_no_dims.admitted ∧
      record zlib Schedule.sequential ⟨record_no_dims.bytes, false⟩ =
        (Iter.stop Outcome.abort, [], [])) ∧
    (wide_record.admitted ∧
      (4 * 2 * wide_record.num_dims) % 4294967296 = 8 ∧
      record zlib Schedule.sequential ⟨wide_record.bytes, false⟩ =
        (assert_fread 8 8
          ⟨List.replicate 4294967296 0 ++ (le_bytes 8 9 ++ check_string), false⟩
          fun b_size f6 =>
            assert_fread (le_value b_size) (le_value b_size) f6 fun data f7 =>
              check zlib Schedule.sequential 0xCBF43926 (le_value b_size) data f7) ∧
      record zlib Schedule.sequential ⟨wide_record.bytes, false⟩ =
        (Iter.stop Outcome.abort, [], [])) := by
  have h := record_after_shape zlib Schedule.sequential [0x41] 0xCBF43926 536870913
    (List.replicate 8 0) (List.replicate 4294967296 0 ++ (le_bytes 8 9 ++ check_string))
    false (by decide) (by decide) (by decide) (by rw [List.length_replicate])
    (by rw [List.length_replicate]; decide)
  rw [← wide_record_bytes] at h
  refine ⟨⟨?_, rfl⟩, ?_, rfl, h, ?_⟩
  · unfold Record.admitted; decide
  · unfold Record.admitted wide_record
    exact ⟨by decide, by decide, by simp only [List.length_replicate], by decide⟩
  · rw [h]
    have e : List.replicate 4294967296 (0 : Byte) =
        List.replicate 8 0 ++ List.replicate 4294967288 0 := by
      rw [← List.replicate_add]
    have r := assert_fread_append 8 (List.replicate 8 (0 : Byte))
      (List.replicate 4294967288 0 ++ (le_bytes 8 9 ++ check_string)) false
    rw [List.length_replicate] at r
    rw [e, List.append_assoc, r _ (by decide) (by decide)]
    have v : le_value (List.replicate 8 (0 : Byte)) = 0 := by decide
    rw [v, assert_fread_zero]

/-- Claim C14, amended: for a record whose tag is read (a non-empty tag shorter
than `2^32 - 1` bytes) and whose dimension count `nd` is between 1 and
`2^29 - 1`, the read of the shape descriptor consumes exactly the `8 * nd`
bytes that follow the `num_dims` field, so that the 8-byte read of the payload
length starts right after them; when a payload length `plen` is stored there,
`plen` is the length that is read. -/
theorem shape_read_consumes (z : Zlib) (sched : Schedule) (tag : List Byte) (crc : U32)
    (nd : Nat) (shape rest : List Byte) (e : Bool) (plen : Nat)
    (ht0 : 0 < tag.length) (ht1 : tag.length < 4294967295)
    (hd0 : 0 < nd) (hd1 : nd < 536870912) (hs : shape.length = 8 * nd)
    (hp : plen < 18446744073709551616) :
    record z sched
        ⟨le_bytes 4 tag.length ++ (tag ++ (le_bytes 4 crc.val ++ (le_bytes 4 nd ++
          (shape ++ rest)))), e⟩ =
      (assert_fread 8 8 ⟨rest, e⟩ fun b_size f6 =>
        assert_fread (le_value b_size) (le_value b_size) f6 fun data f7 =>
          check z sched crc (le_value b_size) data f7) ∧
    record z sched
        ⟨le_bytes 4 tag.length ++ (tag ++ (le_bytes 4 crc.val ++ (le_bytes 4 nd ++
          (shape ++ (le_bytes 8 plen ++ rest))))), e⟩ =
      (assert_fread plen plen ⟨rest, e⟩ fun data f7 => check z sched crc plen data f7) := by
  have hs1 : shape.length = (4 * 2 * nd) % 4294967296 := by omega
  constructor
  · exact record_after_shape z sched tag crc nd shape rest e ht0 ht1 (by omega) hs1 (by omega)
  · rw [record_after_shape z sched tag crc nd shape _ e ht0 ht1 (by omega) hs1 (by omega)]
    have r := assert_fread_append 8 (le_bytes 8 plen) rest e
    rw [le_bytes_length] at r
    rw [r _ (by omega) (by omega), le_value_le_bytes 8 _ (by norm_num; omega)]

/-- Claim C14, amended, instance: the header of a record with tag `A` and one
dimension, followed by the payload length 9 and the check string. -/
theorem shape_read_consumes_witness :
    0 < ([0x41] : List Byte).length ∧ ([0x41] : List Byte).length < 4294967295 ∧
    0 < 1 ∧ 1 < 536870912 ∧ zero_shape.length = 8 * 1 ∧ 9 < 18446744073709551616 ∧
    record zlib Schedule.sequential
        ⟨le_bytes 4 ([0x41] : List Byte).length ++ (([0x41] : List Byte) ++
          (le_bytes 4 (0xCBF43926 : U32).val ++ (le_bytes 4 1 ++
            (zero_shape ++ check_string)))), false⟩ =
      (assert_fread 8 8 ⟨check_string, false⟩ fun b_size f6 =>
        assert_fread (le_value b_size) (le_value b_size) f6 fun data f7 =>
          check zlib Schedule.sequential 0xCBF43926 (le_value b_size) data f7) ∧
    record zlib Schedule.sequential
        ⟨le_bytes 4 ([0x41] : List Byte).length ++ (([0x41] : List Byte) ++
          (le_bytes 4 (0xCBF43926 : U32).val ++ (le_bytes 4 1 ++
            (zero_shape ++ (le_bytes 8 9 ++ check_string))))), false⟩ =
      (assert_fread 9 9 ⟨check_string, false⟩ fun data f7 =>
        check zlib Schedule.sequential 0xCBF43926 9 data f7) :=
  ⟨by decide, by decide, by decide, by decide, by decide, by decide,
    shape_read_consumes zlib Schedule.sequential [0x41] 0xCBF43926 1 zero_shape check_string
      false 9 (by decide) (by decide) (by decide) (by decide) (by decide) (by decide)⟩

/-! ## Results on a payload cut short behind a wrapped shape read -/

set_option maxRecDepth 100000 in
theorem zlib_crc32_zero_byte : zlib_crc32 0 [0] = 0xD202EF8D := by
  decide

theorem bad_record_readable : bad_record.readable := by
  unfold Record.readable
  decide

theorem skewed_shape_length : skewed_shape.length = 4294967304 := by
  unfold skewed_shape
  rw [List.length_append, List.length_append, List.length_append, List.length_replicate,
    List.length_replicate, le_bytes_length, List.length_singleton]

theorem skewed_record_admitted : skewed_record.admitted := by
  have h1 : skewed_record.tag.length < 4294967296 := by decide
  have h2 : skewed_record.num_dims < 4294967296 := by decide
  have h3 : skewed_record.shape_descriptor.length = 8 * skewed_record.num_dims :=
    skewed_shape_length
  have h4 : skewed_record.payload.length < 18446744073709551616 := by decide
  exact ⟨h1, h2, h3, h4⟩

/-- The body of the record loop on the header of `skewed_record` followed by
any bytes: the size of the shape read wraps to 8, the payload length is taken
from the bytes 8 to 15 of the shape descriptor, the payload is the byte after
them, and its checksum differs from the stored one. -/
theorem record_skewed (short : List Byte) :
    ∃ t, record zlib Schedule.sequential ⟨skewed_record.header ++ short, false⟩ =
      (Iter.stop (Outcome.exit 2), [Verdict.err 0xD202EF8D], t) := by
  have hb : skewed_record.header ++ short =
      le_bytes 4 ([0x41] : List Byte).length ++ (([0x41] : List Byte) ++
        (le_bytes 4 (0xCBF43926 : U32).val ++ (le_bytes 4 536870913 ++
          (List.replicate 8 0 ++
            (le_bytes 8 1 ++ ([0] ++ (List.replicate 4294967287 0 ++
              (le_bytes 8 9 ++ short)))))))) := by
    unfold Record.header skewed_record skewed_shape
    simp only [List.append_assoc]
    rfl
  have h := record_after_shape zlib Schedule.sequential [0x41] 0xCBF43926 536870913
    (List.replicate 8 0)
    (le_bytes 8 1 ++ ([0] ++ (List.replicate 4294967287 0 ++ (le_bytes 8 9 ++ short))))
    false (by decide) (by decide) (by decide) (by rw [List.length_replicate])
    (by rw [List.length_replicate]; decide)
  rw [← hb] at h
  have r1 := assert_fread_append 8 (le_bytes 8 1)
    ([0] ++ (List.replicate 4294967287 0 ++ (le_bytes 8 9 ++ short))) false
  rw [le_bytes_length] at r1
  have v1 : le_value (le_bytes 8 1) = 1 := le_value_le_bytes 8 1 (by norm_num)
  have r2 := assert_fread_append 1 ([0] : List Byte)
    (List.replicate 4294967287 0 ++ (le_bytes 8 9 ++ short)) false
  rw [List.length_singleton] at r2
  have hv : (cgpt_crc32 zlib Schedule.sequential [0] 0
      ((([0] : List Byte).length : Nat) : Int) 0).value = some 0xD202EF8D := by
    have hv1 := cgpt_crc32_value_eq zlib Schedule.sequential [0] 0 ([0] : List Byte).length 0
      zlib_crc32_nil zlib_crc32_combine_law (by decide)
    rw [List.drop_zero, List.take_length] at hv1
    rw [hv1]
    exact congrArg some zlib_crc32_zero_byte
  obtain ⟨t, hc⟩ := check_eq zlib Schedule.sequential 0xCBF43926 [0]
    ⟨List.replicate 4294967287 0 ++ (le_bytes 8 9 ++ short), false⟩ 0xD202EF8D (by decide) hv
  rw [List.length_singleton, if_neg (by decide)] at hc
  refine ⟨t, ?_⟩
  rw [h, r1 _ (by decide) (by decide), v1, r2 _ (by decide) (by decide), hc]

/-- Claim C9, as the code has it: a file whose final record has a complete
header and a payload cut short can end with exit status 2.  First, when a
record before it has a wrong stored checksum, the run stops there with status
2.  Second, a record that the layout admits with `2^29 + 1` dimensions, whose
payload of nine bytes is cut after four: the size `4*2*nd` of the shape read
wraps to 8, the payload length is read from inside the shape descriptor, and
`cgpt_crc32` runs on a byte of the shape descriptor, whose checksum
`0xD202EF8D` is not the stored one. -/
theorem truncated_payload_exits_two :
    (bad_record.readable ∧
      ([0x31, 0x32, 0x33, 0x34] : List Byte).length < good_record.payload.length ∧
      (main zlib Schedule.sequential
        (fun _ => some (file_bytes [bad_record] ++
          (good_record.header ++ [0x31, 0x32, 0x33, 0x34]))) ["a.field"]).1 =
        Outcome.exit 2) ∧
    (skewed_record.admitted ∧
      skewed_record.reference_crc32 = zlib.crc32 0 skewed_record.payload ∧
      ([0x31, 0x32, 0x33, 0x34] : List Byte).length < skewed_record.payload.length ∧
      (main zlib Schedule.sequential
        (fun _ => some (skewed_record.header ++ [0x31, 0x32, 0x33, 0x34])) ["a.field"]).1 =
        Outcome.exit 2 ∧
      (main zlib Schedule.sequential
        (fun _ => some (skewed_record.header ++ [0x31, 0x32, 0x33, 0x34])) ["a.field"]).2.1 =
        [Verdict.err 0xD202EF8D]) := by
  refine ⟨⟨bad_record_readable, by decide, ?_⟩, skewed_record_admitted, ?_, by decide, ?_⟩
  · obtain ⟨t, hc⟩ := check_eq zlib Schedule.sequential bad_record.reference_crc32
      bad_record.payload ⟨good_record.header ++ [0x31, 0x32, 0x33, 0x34], false⟩ 0xCBF43926
      (by decide) check_string_value
    rw [if_neg (by decide)] at hc
    have hf : file_bytes [bad_record] ++ (good_record.header ++ [0x31, 0x32, 0x33, 0x34]) =
        bad_record.bytes ++ (good_record.header ++ [0x31, 0x32, 0x33, 0x34]) := by
      unfold file_bytes
      rw [List.map_singleton, List.flatten_singleton]
    rw [main_cons_some zlib Schedule.sequential _ "a.field" [] _ _ _ _ rfl
      (records_stop zlib Schedule.sequential _ _ _ _
        (hf ▸ (record_readable zlib Schedule.sequential bad_record _ false
          bad_record_readable).trans hc))]
  · simp only [skewed_record, zlib, zlib_crc32_check_string]
  · obtain ⟨t, h⟩ := record_skewed [0x31, 0x32, 0x33, 0x34]
    rw [main_cons_some zlib Schedule.sequential _ "a.field" [] _ _ _ _ rfl
      (records_stop zlib Schedule.sequential _ _ _ _ h)]
    exact ⟨rfl, rfl⟩

end CheckFields
